import Mathlib

/-!
# httpclt: header parsing, request executor and rate-limited dispatcher

A shallow embedding of `main.go`.  Strings are lists of code points, the
process-wide flags are a `Config` record, the results of the HTTP library and
of the network are supplied by an `Env`, and what the program does is recorded
as lists of `Event`s: one list for the main goroutine and one per launched
request goroutine.
-/

namespace Httpclt

/-! ## Strings (package `strings`) -/

/-- A Go string, seen as its sequence of code points. -/
abbrev Str := List Char

/-- Go's `unicode.IsSpace`: the Latin-1 spaces and the code points with the
White_Space property. -/
def isSpace (c : Char) : Bool :=
  let n := c.toNat
  (9 ≤ n && n ≤ 13) || n == 32 || n == 0x85 || n == 0xA0 || n == 0x1680 ||
    (0x2000 ≤ n && n ≤ 0x200A) || n == 0x2028 || n == 0x2029 || n == 0x202F ||
    n == 0x205F || n == 0x3000

/-- Go's `strings.TrimLeftFunc(s, unicode.IsSpace)`. -/
def trimLeft (s : Str) : Str := s.dropWhile isSpace

/-- Go's `strings.TrimRightFunc(s, unicode.IsSpace)`. -/
def trimRight (s : Str) : Str := (s.reverse.dropWhile isSpace).reverse

/-- Go's `strings.TrimSpace`. -/
def TrimSpace (s : Str) : Str := trimRight (trimLeft s)

/-- Go's `strings.Index` for a one-character separator. -/
def Index (sep : Char) : Str → Option Nat
  | [] => none
  | c :: cs => if c = sep then some 0 else (Index sep cs).map (· + 1)

/-- The loop of Go's `strings.genSplit`: cut at the separator at most `n`
times, the last piece being the unsplit remainder. -/
def splitLoop (sep : Char) : Nat → Str → List Str
  | 0, s => [s]
  | n + 1, s =>
    match Index sep s with
    | none => [s]
    | some m => s.take m :: splitLoop sep n (s.drop (m + 1))

/-- Go's `strings.SplitN(s, sep, n)` for a one-character separator and
`n ≥ 0`: no piece for `n = 0`, otherwise at most `n` pieces (the count is
first capped at `len(s) + 1`, as `genSplit` does). -/
def SplitN (s : Str) (sep : Char) (n : Nat) : List Str :=
  if n = 0 then [] else splitLoop sep (min n (s.length + 1) - 1) s

/-! ## The header map (`net/http.Header`) -/

/-- The token characters of `net/textproto.validHeaderFieldByte`. -/
def validHeaderFieldByte (c : Char) : Bool :=
  let n := c.toNat
  (48 ≤ n && n ≤ 57) || (65 ≤ n && n ≤ 90) || (97 ≤ n && n ≤ 122) ||
    [33, 35, 36, 37, 38, 39, 42, 43, 45, 46, 94, 95, 96, 124, 126].contains n

/-- The canonicalising loop of `net/textproto`: upper case at the start and
after each dash, lower case elsewhere. -/
def canonLoop : Bool → Str → Str
  | _, [] => []
  | upper, c :: cs =>
    let c1 :=
      if upper && c.isLower then c.toUpper
      else if !upper && c.isUpper then c.toLower
      else c
    c1 :: canonLoop (c1 == '-') cs

/-- Go's `textproto.CanonicalMIMEHeaderKey`: a key with a character that is
not a token character is returned unchanged. -/
def CanonicalMIMEHeaderKey (s : Str) : Str :=
  if s.all validHeaderFieldByte then canonLoop true s else s

/-- Go's `http.Header`, a `map[string][]string`, as an association list with
at most one entry per key. -/
abbrev Header := List (Str × List Str)

/-- The map lookup `h[key]`. -/
def headerGet (h : Header) (key : Str) : Option (List Str) :=
  (h.find? (fun e => e.1 = key)).map (·.2)

/-- Go's `Header.Set`: `h[CanonicalMIMEHeaderKey(key)] = []string{value}`. -/
def headerSet (h : Header) (key value : Str) : Header :=
  (CanonicalMIMEHeaderKey key, [value]) ::
    h.filter (fun e => e.1 ≠ CanonicalMIMEHeaderKey key)

/-- Go's `httpguts.ValidHeaderFieldName`: a non-empty run of token
characters. -/
def ValidHeaderFieldName (k : Str) : Bool :=
  !k.isEmpty && k.all validHeaderFieldByte

/-- Go's `httpguts.ValidHeaderFieldValue`: no control character other than the
tab. -/
def ValidHeaderFieldValue (v : Str) : Bool :=
  v.all (fun c => !((c.toNat < 32 || c.toNat == 127) && !(c.toNat == 32 || c.toNat == 9)))

/-- The check of the outgoing headers in `net/http`'s `Transport.roundTrip`:
every field name and every field value of the map is valid. -/
def validateHeaders (hdr : Header) : Bool :=
  hdr.all (fun e => ValidHeaderFieldName e.1 && e.2.all ValidHeaderFieldValue)

/-! ## Events -/

/-- What one request execution meets: `http.NewRequest` fails, `client.Do`
fails, reading the response body fails, or nothing fails. -/
inductive Outcome
  | buildFail
  | sendFail
  | drainFail
  | success
  deriving DecidableEq, Repr

/-- The response of the server, as far as the program prints it. -/
structure Response where
  status : Str
  header : Header
  body : Str
  deriving DecidableEq, Repr

/-- The observable actions of the program.  A label `some i` is the
`[Request i]` prefix of the executor; `none` is the single request of the
single-shot block. -/
inductive Event
  | usage
  | newRequest (label : Option Int) (method url : Str) (body : Option Str)
  | errCreate (label : Option Int)
  | warnHeader (label : Option Int) (h : Str)
  | echoRequest (method url : Str)
  | echoHeader (key value : Str)
  | echoBody (body : Str)
  | echoEnd
  | send (label : Option Int) (header : Header)
  | errSend (label : Option Int)
  | status (label : Option Int) (status : Str)
  | respHeader (key value : Str)
  | respEnd
  | respBody (body : Str)
  | errRead (label : Option Int)
  | bodyClose (label : Option Int)
  | newTicker (interval : Int)
  | banner (requests : Int) (url : Str)
  | tickWait
  | wgAdd (delta : Int)
  | go (requestNum : Int)
  | wgDone
  | wgWait
  | summary (requests : Int)
  deriving DecidableEq, Repr

/-- How the process ends: `main` returns, `os.Exit` (also through
`log.Fatalf`), or a run-time panic. -/
inductive Exit
  | returned
  | osExit (code : Nat)
  | panicked
  deriving DecidableEq, Repr

/-- The exit status of the process; a Go program that panics exits with 2. -/
def Exit.status : Exit → Nat
  | .returned => 0
  | .osExit code => code
  | .panicked => 2

/-- The flags after `flag.Parse()`. -/
structure Config where
  url : Str
  method : Str
  body : Str
  requests : Int
  perSecond : Int
  headers : List Str
  deriving DecidableEq, Repr

/-- The results of the library and of the network, per request label, and
Go's Unicode `strings.ToUpper`, taken as given. -/
structure Env where
  outcome : Option Int → Outcome
  response : Option Int → Response
  ToUpper : Str → Str

/-- The result of `client.Do` on a request with header map `hdr` when the
network would give `o`: the transport refuses a header map with an invalid
field name or value before anything is sent. -/
def clientDo (hdr : Header) (o : Outcome) : Outcome :=
  if validateHeaders hdr then o else Outcome.sendFail

/-- One run: the events of the main goroutine in program order, the events of
each launched goroutine in program order (in launch order), and the exit. -/
structure Run where
  coordinator : List Event
  workers : List (List Event)
  exit : Exit
  deriving DecidableEq, Repr

/-! ## The request executor -/

/-- The header loop of `makeRequest` (lines 42-51), from header map `hdr` on:
the final header map and the warnings logged. -/
def makeRequestHeaders (requestNum : Int) : Header → List Str → Header × List Event
  | hdr, [] => (hdr, [])
  | hdr, h :: rest =>
    match SplitN h ':' 2 with
    | [p0, p1] =>
      makeRequestHeaders requestNum (headerSet hdr (TrimSpace p0) (TrimSpace p1)) rest
    | _ =>
      let r := makeRequestHeaders requestNum hdr rest
      (r.1, Event.warnHeader (some requestNum) h :: r.2)

/-- The header loop of the single-shot block of `main` (lines 109-118). -/
def mainHeaders : Header → List Str → Header × List Event
  | hdr, [] => (hdr, [])
  | hdr, h :: rest =>
    match SplitN h ':' 2 with
    | [p0, p1] => mainHeaders (headerSet hdr (TrimSpace p0) (TrimSpace p1)) rest
    | _ =>
      let r := mainHeaders hdr rest
      (r.1, Event.warnHeader none h :: r.2)

/-- The function `makeRequest` (lines 26-66): the events of one execution with
ordinal `requestNum` whose library and network results are `env`; `wg` says
whether the wait-group pointer is non-nil.  Deferred calls run last, the most
recently deferred first. -/
def makeRequest (method urlStr body : Str) (headers : List Str) (wg : Bool)
    (requestNum : Int) (env : Env) : List Event :=
  let deferred : List Event := if wg then [Event.wgDone] else []
  let reqBody : Option Str := if body ≠ [] then some body else none
  let build := [Event.newRequest (some requestNum) (env.ToUpper method) urlStr reqBody]
  match env.outcome (some requestNum) with
  | .buildFail => build ++ [Event.errCreate (some requestNum)] ++ deferred
  | o =>
    let r := makeRequestHeaders requestNum [] headers
    let sent := build ++ r.2 ++ [Event.send (some requestNum) r.1]
    match clientDo r.1 o with
    | .sendFail => sent ++ [Event.errSend (some requestNum)] ++ deferred
    | o1 =>
      let deferred1 := Event.bodyClose (some requestNum) :: deferred
      let printed :=
        sent ++ [Event.status (some requestNum) (env.response (some requestNum)).status]
      match o1 with
      | .drainFail => printed ++ [Event.errRead (some requestNum)] ++ deferred1
      | _ => printed ++ deferred1

/-! ## The single-shot block -/

/-- The method of the request built by `http.NewRequest`: an empty method
means GET. -/
def requestMethod (env : Env) (method : Str) : Str :=
  if env.ToUpper method = [] then "GET".toList else env.ToUpper method

/-- The outbound header lines (lines 121-125): one line per value of each key
of the map. -/
def echoHeaders (hdr : Header) : List Event :=
  (hdr.map (fun e => e.2.map (fun v => Event.echoHeader e.1 v))).flatten

/-- The inbound header lines (lines 139-143). -/
def respHeaders (hdr : Header) : List Event :=
  (hdr.map (fun e => e.2.map (fun v => Event.respHeader e.1 v))).flatten

/-- The block of `main` for `*requests <= 1` (lines 98-153).  `log.Fatalf`
ends the process with status 1 without running deferred calls. -/
def singleShot (cfg : Config) (env : Env) : Run :=
  let reqBody : Option Str := if cfg.body ≠ [] then some cfg.body else none
  let build := [Event.newRequest none (env.ToUpper cfg.method) cfg.url reqBody]
  match env.outcome none with
  | .buildFail => ⟨build ++ [Event.errCreate none], [], .osExit 1⟩
  | o =>
    let r := mainHeaders [] cfg.headers
    let echoed :=
      build ++ r.2 ++ [Event.echoRequest (requestMethod env cfg.method) cfg.url] ++
        echoHeaders r.1 ++ (if cfg.body ≠ [] then [Event.echoBody cfg.body] else []) ++
        [Event.echoEnd, Event.send none r.1]
    match clientDo r.1 o with
    | .sendFail => ⟨echoed ++ [Event.errSend none], [], .osExit 1⟩
    | o1 =>
      let resp := env.response none
      let shown :=
        echoed ++ [Event.status none resp.status] ++ respHeaders resp.header ++
          [Event.respEnd]
      match o1 with
      | .drainFail => ⟨shown ++ [Event.errRead none], [], .osExit 1⟩
      | _ => ⟨shown ++ [Event.respBody resp.body, Event.bodyClose none], [], .returned⟩

/-! ## The dispatcher -/

/-- The interval `time.Second / time.Duration(*perSecond)` in nanoseconds
(line 159); Go's integer division truncates. -/
def tickInterval (perSecond : Int) : Int := Int.tdiv 1000000000 perSecond

/-- The loop `for i := 1; i <= *requests; i++` (lines 165-171) from counter
`i` on, for at most `fuel` iterations: the events of the main goroutine and
the goroutines launched.  `ticker` says whether the channel is non-nil.  The counter is an unbounded
integer: the `int` of the source would wrap only after `i = 2^63 - 1`. -/
def dispatchLoop (cfg : Config) (env : Env) (ticker : Bool) :
    Nat → Int → List Event × List (List Event)
  | 0, _ => ([], [])
  | fuel + 1, i =>
    if i ≤ cfg.requests then
      let r := dispatchLoop cfg env ticker fuel (i + 1)
      ((if ticker then [Event.tickWait] else []) ++ [Event.wgAdd 1, Event.go i] ++ r.1,
        makeRequest cfg.method cfg.url cfg.body cfg.headers true i env :: r.2)
    else ([], [])

/-- The part of `main` after the single-shot block (lines 155-176).
`time.NewTicker` panics on a non-positive interval.  The loop gets
`*requests` iterations of fuel, which is what it needs from `i = 1`. -/
def dispatcher (cfg : Config) (env : Env) : Run :=
  let ticker : Bool := decide (cfg.perSecond > 0)
  if ticker = true ∧ tickInterval cfg.perSecond ≤ 0 then
    ⟨[], [], .panicked⟩
  else
    let r := dispatchLoop cfg env ticker cfg.requests.toNat 1
    ⟨(if ticker then [Event.newTicker (tickInterval cfg.perSecond)] else []) ++
        [Event.banner cfg.requests cfg.url] ++ r.1 ++
        [Event.wgWait, Event.summary cfg.requests],
      r.2, .returned⟩

/-- The function `main` after `flag.Parse()` (lines 90-176). -/
def main (cfg : Config) (env : Env) : Run :=
  if cfg.url = [] then ⟨[Event.usage], [], .osExit 1⟩
  else if cfg.requests ≤ 1 then singleShot cfg env
  else dispatcher cfg env

/-- All events of a run, the main goroutine first; a schedule of the run is a
rearrangement of this list. -/
def Run.events (r : Run) : List Event := r.coordinator ++ r.workers.flatten

/-- The value of the wait-group counter after a sequence of events. -/
def wgCounter : List Event → Int
  | [] => 0
  | Event.wgAdd d :: es => d + wgCounter es
  | Event.wgDone :: es => -1 + wgCounter es
  | _ :: es => wgCounter es

/-! ## Time -/

/-- A receive on the channel of a `time.Ticker` with the given period whose
next tick is due at `nextFire`, begun at time `now` (all in nanoseconds): the
time of the next tick afterwards, and the time at which the receive returns.
The channel keeps one tick, later ticks that find it full are dropped. -/
def tickerRecv (period nextFire now : Nat) : Nat × Nat :=
  if nextFire ≤ now then (nextFire + ((now - nextFire) / period + 1) * period, now)
  else (nextFire + period, nextFire)

/-- The times at which the events of the main goroutine happen, when the
`k`-th event is begun `delay k` nanoseconds after the one before it ends.
`tk` is the period and the next tick of the ticker, once it is created (the
program waits for a tick only when it has a ticker).  The time of `wgWait` is
the time at which the wait begins. -/
def timeline (delay : Nat → Nat) :
    Nat → Option (Nat × Nat) → Nat → List Event → List (Event × Nat)
  | _, _, _, [] => []
  | k, tk, now, e :: es =>
    let start := now + delay k
    match e, tk with
    | .newTicker d, _ =>
      (e, start) :: timeline delay (k + 1) (some (d.toNat, start + d.toNat)) start es
    | .tickWait, some (p, nf) =>
      (e, (tickerRecv p nf start).2) ::
        timeline delay (k + 1) (some (p, (tickerRecv p nf start).1))
          (tickerRecv p nf start).2 es
    | _, _ => (e, start) :: timeline delay (k + 1) tk start es

/-! ## Observations on event lists -/

/-- The request executions begun: the calls of `http.NewRequest`. -/
def executions (es : List Event) : Nat :=
  es.countP (fun e => match e with | .newRequest _ _ _ _ => true | _ => false)

/-- The requests handed to `client.Do`. -/
def sends (es : List Event) : Nat :=
  es.countP (fun e => match e with | .send _ _ => true | _ => false)

/-- The ordinals of the goroutines launched, in launch order. -/
def launched (es : List Event) : List Int :=
  es.filterMap (fun e => match e with | .go i => some i | _ => none)

/-- The responses received: the status lines printed. -/
def responses (es : List Event) : Nat :=
  es.countP (fun e => match e with | .status _ _ => true | _ => false)

/-- The header warnings logged. -/
def warnings (es : List Event) : List Event :=
  es.filter (fun e => match e with | .warnHeader _ _ => true | _ => false)

/-- The outbound header lines printed for `key`. -/
def echoLinesFor (key : Str) (es : List Event) : Nat :=
  es.countP (fun e => match e with | .echoHeader k _ => decide (k = key) | _ => false)

/-- The start banners and completion summaries printed. -/
def reports (es : List Event) : Nat :=
  es.countP (fun e => match e with | .banner _ _ => true | .summary _ => true | _ => false)

/-- The text of a header entry before its first colon. -/
def beforeColon (h : Str) : Str := h.takeWhile (· ≠ ':')

/-- The text of a header entry after its first colon. -/
def afterColon (h : Str) : Str := (h.dropWhile (· ≠ ':')).drop 1

/-- The ordinals `1, 2, ..., n`. -/
def ordinals (n : Int) : List Int :=
  List.map (fun (k : Nat) => (k : Int) + 1) (List.range n.toNat)

/-! ## Notions used in the statements -/

/-- One step of the header map: the entry `h` applied to `hdr`. -/
def applyEntry (hdr : Header) (h : Str) : Header :=
  headerSet hdr (TrimSpace (beforeColon h)) (TrimSpace (afterColon h))

/-- What it means for `t` to be `s` with the surrounding white space removed:
`s` is `t` between two runs of white space, and `t` neither starts nor ends
with white space. -/
def IsTrimOf (t s : Str) : Prop :=
  (∃ pre suf : Str, s = pre ++ t ++ suf ∧ pre.all isSpace = true ∧ suf.all isSpace = true) ∧
    (∀ c, t.head? = some c → isSpace c = false) ∧
    (∀ c, t.getLast? = some c → isSpace c = false)

/-- The last entry of `hs` whose canonical key is `k`. -/
def lastEntryFor (k : Str) (hs : List Str) : Option Str :=
  hs.reverse.find? (fun h => decide (CanonicalMIMEHeaderKey (TrimSpace (beforeColon h)) = k))

/-- The keys of a header map are pairwise different. -/
def KeysNodup (hdr : Header) : Prop := (hdr.map (·.1)).Nodup

/-- The ordinals `i, i + 1, ..., n`. -/
def ordinalsFrom (i n : Int) : List Int :=
  List.map (fun (k : Nat) => (k : Int) + i) (List.range (n + 1 - i).toNat)

/-! ## Example inputs -/

/-- The flags `--url http://localhost/ --header "Key: Value" --header NoColonHere`
with the given `--requests` and `--per-second`. -/
def exampleConfig (requests perSecond : Int) : Config :=
  ⟨"http://localhost/".toList, "GET".toList, [], requests, perSecond,
    ["Key: Value".toList, "NoColonHere".toList]⟩

/-- An environment in which every request meets the outcome `o` and every
response is an empty `200 OK`; its `ToUpper` is right on ASCII. -/
def exampleEnv (o : Outcome) : Env :=
  ⟨fun _ => o, fun _ => ⟨"200 OK".toList, [], []⟩, fun s => s.map Char.toUpper⟩

/-- The quotient `a / b` rounded up, for positive `b`. -/
def ceilDiv (a b : Int) : Int := (a + b - 1) / b

/-! # Theorems -/

/-! ## Splitting at the first colon -/

theorem Index_of_not_mem (sep : Char) (s : Str) (h : sep ∉ s) : Index sep s = none := by
  induction s with
  | nil => rfl
  | cons c cs ih =>
    have hc : c ≠ sep := fun e => h (by simp [e])
    have hs : sep ∉ cs := fun m => h (List.mem_cons_of_mem _ m)
    simp [Index, hc, ih hs]

theorem Index_append (sep : Char) (b a : Str) (h : sep ∉ b) :
    Index sep (b ++ sep :: a) = some b.length := by
  induction b with
  | nil => simp [Index]
  | cons c cs ih =>
    have hc : c ≠ sep := fun e => h (by simp [e])
    have hs : sep ∉ cs := fun m => h (List.mem_cons_of_mem _ m)
    simp [Index, hc, ih hs]

theorem SplitN_two_of_not_mem (s : Str) (h : ':' ∉ s) : SplitN s ':' 2 = [s] := by
  cases s with
  | nil => simp [SplitN, splitLoop]
  | cons c cs =>
    have e : min 2 ((c :: cs).length + 1) - 1 = 1 := by simp
    simp only [SplitN, e, splitLoop, Index_of_not_mem _ _ h]
    simp

theorem SplitN_two_of_append (b a : Str) (h : ':' ∉ b) :
    SplitN (b ++ ':' :: a) ':' 2 = [b, a] := by
  have e : min 2 ((b ++ ':' :: a).length + 1) - 1 = 1 := by simp; omega
  simp only [SplitN, e, splitLoop, Index_append _ _ _ h]
  simp

theorem beforeColon_colon (cs : Str) : beforeColon (':' :: cs) = [] := by
  simp [beforeColon, List.takeWhile]

theorem afterColon_colon (cs : Str) : afterColon (':' :: cs) = cs := by
  simp [afterColon, List.dropWhile]

theorem beforeColon_cons (c : Char) (cs : Str) (hc : c ≠ ':') :
    beforeColon (c :: cs) = c :: beforeColon cs := by
  simp [beforeColon, List.takeWhile, hc]

theorem afterColon_cons (c : Char) (cs : Str) (hc : c ≠ ':') :
    afterColon (c :: cs) = afterColon cs := by
  simp [afterColon, List.dropWhile, hc]

theorem before_append_after (h : Str) (hc : ':' ∈ h) :
    h = beforeColon h ++ ':' :: afterColon h := by
  induction h with
  | nil => simp at hc
  | cons c cs ih =>
    by_cases e : c = ':'
    · subst e
      rw [beforeColon_colon, afterColon_colon]
      rfl
    · have : ':' ∈ cs := by
        rcases List.mem_cons.1 hc with h1 | h1
        · exact absurd h1.symm e
        · exact h1
      rw [beforeColon_cons _ _ e, afterColon_cons _ _ e, List.cons_append, ← ih this]

theorem colon_not_mem_before (h : Str) : ':' ∉ beforeColon h := by
  intro m
  have := List.mem_takeWhile_imp m
  simp at this

/-! ## The header loops -/

theorem makeRequestHeaders_colon (n : Int) (hdr : Header) (h : Str) (rest : List Str)
    (hc : ':' ∈ h) :
    makeRequestHeaders n hdr (h :: rest) = makeRequestHeaders n (applyEntry hdr h) rest := by
  have e := SplitN_two_of_append (beforeColon h) (afterColon h) (colon_not_mem_before h)
  rw [← before_append_after h hc] at e
  simp only [makeRequestHeaders, e, applyEntry]

theorem makeRequestHeaders_no_colon (n : Int) (hdr : Header) (h : Str) (rest : List Str)
    (hc : ':' ∉ h) :
    makeRequestHeaders n hdr (h :: rest) =
      ((makeRequestHeaders n hdr rest).1,
        Event.warnHeader (some n) h :: (makeRequestHeaders n hdr rest).2) := by
  simp only [makeRequestHeaders, SplitN_two_of_not_mem h hc]

theorem mainHeaders_colon (hdr : Header) (h : Str) (rest : List Str) (hc : ':' ∈ h) :
    mainHeaders hdr (h :: rest) = mainHeaders (applyEntry hdr h) rest := by
  have e := SplitN_two_of_append (beforeColon h) (afterColon h) (colon_not_mem_before h)
  rw [← before_append_after h hc] at e
  simp only [mainHeaders, e, applyEntry]

theorem mainHeaders_no_colon (hdr : Header) (h : Str) (rest : List Str) (hc : ':' ∉ h) :
    mainHeaders hdr (h :: rest) =
      ((mainHeaders hdr rest).1, Event.warnHeader none h :: (mainHeaders hdr rest).2) := by
  simp only [mainHeaders, SplitN_two_of_not_mem h hc]

theorem makeRequestHeaders_eq (n : Int) (hs : List Str) (hdr : Header) :
    makeRequestHeaders n hdr hs =
      ((hs.filter (fun h => decide (':' ∈ h))).foldl applyEntry hdr,
        (hs.filter (fun h => decide (':' ∉ h))).map (Event.warnHeader (some n))) := by
  induction hs generalizing hdr with
  | nil => rfl
  | cons h rest ih =>
    by_cases hc : ':' ∈ h
    · rw [makeRequestHeaders_colon n hdr h rest hc, ih]
      simp [hc]
    · rw [makeRequestHeaders_no_colon n hdr h rest hc, ih]
      simp [hc]

theorem mainHeaders_eq (hs : List Str) (hdr : Header) :
    mainHeaders hdr hs =
      ((hs.filter (fun h => decide (':' ∈ h))).foldl applyEntry hdr,
        (hs.filter (fun h => decide (':' ∉ h))).map (Event.warnHeader none)) := by
  induction hs generalizing hdr with
  | nil => rfl
  | cons h rest ih =>
    by_cases hc : ':' ∈ h
    · rw [mainHeaders_colon hdr h rest hc, ih]
      simp [hc]
    · rw [mainHeaders_no_colon hdr h rest hc, ih]
      simp [hc]

/-! ## Trimming -/

theorem trimLeft_head (s : Str) (c : Char) (h : (trimLeft s).head? = some c) :
    isSpace c = false := by
  have := List.head?_dropWhile_not isSpace s
  unfold trimLeft at h
  rw [h] at this
  simpa using this

theorem trimRight_getLast (s : Str) (c : Char) (h : (trimRight s).getLast? = some c) :
    isSpace c = false := by
  have := List.head?_dropWhile_not isSpace s.reverse
  unfold trimRight at h
  rw [List.getLast?_reverse] at h
  rw [h] at this
  simpa using this

theorem trimRight_append (s : Str) :
    s = trimRight s ++ (s.reverse.takeWhile isSpace).reverse := by
  have := List.takeWhile_append_dropWhile isSpace s.reverse
  have e := congrArg List.reverse this
  rw [List.reverse_append, List.reverse_reverse] at e
  exact e.symm

theorem TrimSpace_isTrimOf (s : Str) : IsTrimOf (TrimSpace s) s := by
  refine ⟨⟨s.takeWhile isSpace, ((trimLeft s).reverse.takeWhile isSpace).reverse, ?_, ?_, ?_⟩,
    ?_, ?_⟩
  · have h1 := trimRight_append (trimLeft s)
    have h2 := List.takeWhile_append_dropWhile isSpace s
    unfold TrimSpace
    rw [List.append_assoc, ← h1]
    exact h2.symm
  · exact List.all_takeWhile
  · rw [List.all_reverse]
    exact List.all_takeWhile
  · intro c hc
    apply trimLeft_head s c
    have h1 := trimRight_append (trimLeft s)
    unfold TrimSpace at hc
    rw [h1]
    cases ht : trimRight (trimLeft s) with
    | nil => rw [ht] at hc; simp at hc
    | cons a t => rw [ht] at hc; simpa using hc
  · intro c hc
    exact trimRight_getLast _ c hc

/-! ## The header map -/

theorem headerGet_headerSet (hdr : Header) (key value k : Str) :
    headerGet (headerSet hdr key value) k =
      if CanonicalMIMEHeaderKey key = k then some [value] else headerGet hdr k := by
  by_cases e : CanonicalMIMEHeaderKey key = k
  · simp [headerGet, headerSet, e]
  · simp only [headerGet, headerSet, List.find?_cons, e, decide_False, if_false,
      List.find?_filter]
    congr 2
    funext a
    by_cases ha : a.1 = k
    · have : a.1 ≠ CanonicalMIMEHeaderKey key := fun h => e (h.symm.trans ha)
      simp [ha, this]
      exact fun h => e h.symm
    · simp [ha]

theorem headerGet_foldl (hs : List Str) (hdr : Header) (k : Str) :
    headerGet (hs.foldl applyEntry hdr) k =
      match lastEntryFor k hs with
      | some h => some [TrimSpace (afterColon h)]
      | none => headerGet hdr k := by
  induction hs using List.reverseRecOn with
  | nil => simp [lastEntryFor]
  | append_singleton l a ih =>
    rw [List.foldl_append]
    simp only [List.foldl_cons, List.foldl_nil, lastEntryFor, List.reverse_append,
      List.reverse_cons, List.reverse_nil, List.nil_append, List.singleton_append,
      List.find?_cons]
    rw [applyEntry, headerGet_headerSet]
    by_cases e : CanonicalMIMEHeaderKey (TrimSpace (beforeColon a)) = k
    · simp [e]
    · simp only [e, if_false, decide_False]
      exact ih

theorem keysNodup_headerSet (hdr : Header) (key value : Str) (h : KeysNodup hdr) :
    KeysNodup (headerSet hdr key value) := by
  unfold KeysNodup headerSet at *
  rw [List.map_cons, List.nodup_cons]
  constructor
  · intro m
    rcases List.mem_map.1 m with ⟨e, he, hk⟩
    have := (List.mem_filter.1 he).2
    simp at this
    exact this hk
  · exact (h.sublist ((List.filter_sublist _).map _))

theorem keysNodup_foldl (hs : List Str) (hdr : Header) (h : KeysNodup hdr) :
    KeysNodup (hs.foldl applyEntry hdr) := by
  induction hs generalizing hdr with
  | nil => exact h
  | cons a l ih => exact ih _ (keysNodup_headerSet _ _ _ h)

theorem echoLinesFor_echoHeaders (hdr : Header) (k : Str) (h : KeysNodup hdr) :
    echoLinesFor k (echoHeaders hdr) =
      match headerGet hdr k with
      | some vs => vs.length
      | none => 0 := by
  induction hdr with
  | nil => rfl
  | cons e rest ih =>
    have hn : e.1 ∉ rest.map (·.1) := (List.nodup_cons.1 h).1
    have hr : KeysNodup rest := (List.nodup_cons.1 h).2
    have ih1 := ih hr
    simp only [echoLinesFor, echoHeaders, List.map_cons, List.flatten_cons,
      List.countP_append] at ih1 ⊢
    rw [ih1]
    by_cases ek : e.1 = k
    · have hnone : headerGet rest k = none := by
        unfold headerGet
        rw [Option.map_eq_none', List.find?_eq_none]
        intro x hx hxk
        apply hn
        rw [ek]
        exact List.mem_map.2 ⟨x, hx, by simpa using hxk⟩
      rw [hnone]
      simp [headerGet, ek, List.countP_map]
    · have h0 : List.countP
          (fun e => match e with | .echoHeader k1 _ => decide (k1 = k) | _ => false)
          (e.2.map (fun v => Event.echoHeader e.1 v)) = 0 := by
        rw [List.countP_eq_zero]
        intro a ha
        rcases List.mem_map.1 ha with ⟨v, _, rfl⟩
        simp [ek]
      rw [h0]
      simp [headerGet, ek]

/-! ## The dispatch loop -/

theorem ordinalsFrom_of_lt (i n : Int) (h : n < i) : ordinalsFrom i n = [] := by
  have : (n + 1 - i).toNat = 0 := by omega
  simp [ordinalsFrom, this]

theorem ordinalsFrom_of_le (i n : Int) (h : i ≤ n) :
    ordinalsFrom i n = i :: ordinalsFrom (i + 1) n := by
  have : (n + 1 - i).toNat = (n + 1 - (i + 1)).toNat + 1 := by omega
  simp only [ordinalsFrom, this, List.range_succ_eq_map, List.map_cons, List.map_map]
  have e0 : ((0 : Nat) : Int) + i = i := by norm_num
  rw [e0]
  congr 1
  apply List.map_congr_left
  intro k _
  simp only [Function.comp, Nat.succ_eq_add_one]
  push_cast
  ring

theorem ordinalsFrom_one (n : Int) : ordinalsFrom 1 n = ordinals n := by
  simp [ordinalsFrom, ordinals]

/-- With enough fuel the loop runs once for each ordinal from `i` to
`*requests`, whatever the fuel. -/
theorem dispatchLoop_eq (cfg : Config) (env : Env) (tk : Bool) (fuel : Nat) (i : Int)
    (h : cfg.requests + 1 - i ≤ fuel) :
    dispatchLoop cfg env tk fuel i =
      (((ordinalsFrom i cfg.requests).map
          (fun j => (if tk then [Event.tickWait] else []) ++ [Event.wgAdd 1, Event.go j])).flatten,
        (ordinalsFrom i cfg.requests).map
          (fun j => makeRequest cfg.method cfg.url cfg.body cfg.headers true j env)) := by
  induction fuel generalizing i with
  | zero =>
    have : cfg.requests < i := by omega
    simp [dispatchLoop, ordinalsFrom_of_lt _ _ this]
  | succ fuel ih =>
    by_cases hi : i ≤ cfg.requests
    · have ih1 := ih (i + 1) (by omega)
      simp only [dispatchLoop, hi, if_true, ih1, ordinalsFrom_of_le _ _ hi, List.map_cons,
        List.flatten_cons, List.append_assoc]
    · have : cfg.requests < i := by omega
      simp [dispatchLoop, hi, ordinalsFrom_of_lt _ _ this]

/-- The run of the dispatcher when the ticker, if any, can be created. -/
theorem dispatcher_eq (cfg : Config) (env : Env)
    (h : ¬ (0 < cfg.perSecond ∧ tickInterval cfg.perSecond ≤ 0)) :
    dispatcher cfg env =
      ⟨(if 0 < cfg.perSecond then [Event.newTicker (tickInterval cfg.perSecond)] else []) ++
          [Event.banner cfg.requests cfg.url] ++
          ((ordinals cfg.requests).map (fun j =>
            (if 0 < cfg.perSecond then [Event.tickWait] else []) ++
              [Event.wgAdd 1, Event.go j])).flatten ++
          [Event.wgWait, Event.summary cfg.requests],
        (ordinals cfg.requests).map
          (fun j => makeRequest cfg.method cfg.url cfg.body cfg.headers true j env),
        .returned⟩ := by
  have hf : cfg.requests + 1 - 1 ≤ (cfg.requests.toNat : Int) := by omega
  have e := dispatchLoop_eq cfg env (decide (cfg.perSecond > 0)) cfg.requests.toNat 1 hf
  rw [ordinalsFrom_one] at e
  unfold dispatcher
  simp only [e]
  by_cases hp : 0 < cfg.perSecond
  · have h2 : ¬ tickInterval cfg.perSecond ≤ 0 := fun c => h ⟨hp, c⟩
    simp [hp, h2]
  · simp [hp]

theorem tickInterval_pos (r : Int) (h0 : 0 < r) (h1 : r ≤ 1000000000) :
    0 < tickInterval r := by
  unfold tickInterval
  rw [Int.tdiv_eq_ediv (by norm_num) (le_of_lt h0)]
  have : (1 : Int) ≤ 1000000000 / r := Int.le_ediv_of_mul_le h0 (by omega)
  omega

theorem tickInterval_big (r : Int) (h1 : 1000000000 < r) : tickInterval r = 0 := by
  unfold tickInterval
  rw [Int.tdiv_eq_ediv (by norm_num) (by omega)]
  exact Int.ediv_eq_zero_of_lt (by norm_num) h1

/-! ## The wait-group counter -/

theorem wgCounter_append (a b : List Event) : wgCounter (a ++ b) = wgCounter a + wgCounter b := by
  induction a with
  | nil => simp [wgCounter]
  | cons e es ih => cases e <;> simp [wgCounter, ih] <;> ring

theorem wgCounter_perm {a b : List Event} (h : a.Perm b) : wgCounter a = wgCounter b := by
  induction h with
  | nil => rfl
  | cons e _ ih => cases e <;> simp [wgCounter, ih]
  | swap x y l => cases x <;> cases y <;> simp [wgCounter] <;> ring
  | trans _ _ ih1 ih2 => exact ih1.trans ih2

theorem wgCounter_eq_zero (l : List Event)
    (h : ∀ e ∈ l, (∀ d, e ≠ Event.wgAdd d) ∧ e ≠ Event.wgDone) : wgCounter l = 0 := by
  induction l with
  | nil => rfl
  | cons e es ih =>
    have h1 := h e (List.mem_cons_self _ _)
    have h2 := ih (fun x hx => h x (List.mem_cons_of_mem _ hx))
    cases e <;> simp_all [wgCounter]

/-! ## The events of the header loops and of the echo -/

theorem mem_makeRequestHeaders (n : Int) (hdr : Header) (hs : List Str) (e : Event)
    (h : e ∈ (makeRequestHeaders n hdr hs).2) : ∃ s, e = Event.warnHeader (some n) s := by
  rw [makeRequestHeaders_eq] at h
  rcases List.mem_map.1 h with ⟨s, _, rfl⟩
  exact ⟨s, rfl⟩

theorem mem_mainHeaders (hdr : Header) (hs : List Str) (e : Event)
    (h : e ∈ (mainHeaders hdr hs).2) : ∃ s, e = Event.warnHeader none s := by
  rw [mainHeaders_eq] at h
  rcases List.mem_map.1 h with ⟨s, _, rfl⟩
  exact ⟨s, rfl⟩

theorem mem_echoHeaders (hdr : Header) (e : Event) (h : e ∈ echoHeaders hdr) :
    ∃ k v, e = Event.echoHeader k v := by
  unfold echoHeaders at h
  rcases List.mem_flatten.1 h with ⟨l, hl, he⟩
  rcases List.mem_map.1 hl with ⟨x, _, rfl⟩
  rcases List.mem_map.1 he with ⟨v, _, rfl⟩
  exact ⟨_, _, rfl⟩

theorem mem_respHeaders (hdr : Header) (e : Event) (h : e ∈ respHeaders hdr) :
    ∃ k v, e = Event.respHeader k v := by
  unfold respHeaders at h
  rcases List.mem_flatten.1 h with ⟨l, hl, he⟩
  rcases List.mem_map.1 hl with ⟨x, _, rfl⟩
  rcases List.mem_map.1 he with ⟨v, _, rfl⟩
  exact ⟨_, _, rfl⟩

/-- An observation that counts no header warning sees none in the header loop
of the executor. -/
theorem countP_makeRequestHeaders (p : Event → Bool) (hp : ∀ l s, p (Event.warnHeader l s) = false)
    (n : Int) (hdr : Header) (hs : List Str) :
    List.countP p (makeRequestHeaders n hdr hs).2 = 0 := by
  rw [List.countP_eq_zero]
  intro e he
  rcases mem_makeRequestHeaders _ _ _ _ he with ⟨s, rfl⟩
  simp [hp]

theorem countP_mainHeaders (p : Event → Bool) (hp : ∀ l s, p (Event.warnHeader l s) = false)
    (hdr : Header) (hs : List Str) :
    List.countP p (mainHeaders hdr hs).2 = 0 := by
  rw [List.countP_eq_zero]
  intro e he
  rcases mem_mainHeaders _ _ _ he with ⟨s, rfl⟩
  simp [hp]

theorem countP_echoHeaders (p : Event → Bool) (hp : ∀ k v, p (Event.echoHeader k v) = false)
    (hdr : Header) : List.countP p (echoHeaders hdr) = 0 := by
  rw [List.countP_eq_zero]
  intro e he
  rcases mem_echoHeaders _ _ he with ⟨k, v, rfl⟩
  simp [hp]

theorem countP_respHeaders (p : Event → Bool) (hp : ∀ k v, p (Event.respHeader k v) = false)
    (hdr : Header) : List.countP p (respHeaders hdr) = 0 := by
  rw [List.countP_eq_zero]
  intro e he
  rcases mem_respHeaders _ _ he with ⟨k, v, rfl⟩
  simp [hp]

/-! ## One execution -/

theorem makeRequest_executions (m u b : Str) (hs : List Str) (wg : Bool) (n : Int) (env : Env) :
    executions (makeRequest m u b hs wg n env) = 1 := by
  have hw := countP_makeRequestHeaders
    (fun e => match e with | .newRequest _ _ _ _ => true | _ => false) (fun _ _ => rfl) n [] hs
  unfold makeRequest executions
  cases hv : validateHeaders (makeRequestHeaders n [] hs).1 <;>
    cases env.outcome (some n) <;> cases wg <;> simp [clientDo, hv, List.countP_cons, hw]

theorem makeRequest_wgDone (m u b : Str) (hs : List Str) (n : Int) (env : Env) :
    List.countP (fun e => decide (e = Event.wgDone)) (makeRequest m u b hs true n env) = 1 := by
  have hw := countP_makeRequestHeaders
    (fun e => decide (e = Event.wgDone)) (fun _ _ => by simp) n [] hs
  unfold makeRequest
  cases hv : validateHeaders (makeRequestHeaders n [] hs).1 <;>
    cases env.outcome (some n) <;> simp [clientDo, hv, List.countP_cons, hw]

theorem makeRequest_getLast (m u b : Str) (hs : List Str) (n : Int) (env : Env) :
    (makeRequest m u b hs true n env).getLast? = some Event.wgDone := by
  unfold makeRequest
  cases hv : validateHeaders (makeRequestHeaders n [] hs).1 <;>
    cases env.outcome (some n) <;>
    simp [clientDo, hv, List.getLast?_cons, List.getLast?_append, List.getLast?_cons_cons]

theorem makeRequest_wgCounter (m u b : Str) (hs : List Str) (n : Int) (env : Env) :
    wgCounter (makeRequest m u b hs true n env) = -1 := by
  have hw : wgCounter (makeRequestHeaders n [] hs).2 = 0 := by
    apply wgCounter_eq_zero
    intro e he
    rcases mem_makeRequestHeaders _ _ _ _ he with ⟨s, rfl⟩
    simp
  unfold makeRequest
  cases hv : validateHeaders (makeRequestHeaders n [] hs).1 <;>
    cases env.outcome (some n) <;> simp [clientDo, hv, wgCounter_append, wgCounter, hw]

theorem makeRequest_sends (m u b : Str) (hs : List Str) (wg : Bool) (n : Int) (env : Env) :
    sends (makeRequest m u b hs wg n env) =
      if env.outcome (some n) = Outcome.buildFail then 0 else 1 := by
  have hw := countP_makeRequestHeaders
    (fun e => match e with | .send _ _ => true | _ => false) (fun _ _ => rfl) n [] hs
  unfold makeRequest sends
  cases hv : validateHeaders (makeRequestHeaders n [] hs).1 <;>
    cases env.outcome (some n) <;> cases wg <;> simp [clientDo, hv, List.countP_cons, hw]

/-! ## The single-shot block -/

theorem singleShot_workers (cfg : Config) (env : Env) : (singleShot cfg env).workers = [] := by
  unfold singleShot
  cases hv : validateHeaders (mainHeaders [] cfg.headers).1 <;>
    cases env.outcome none <;> simp [clientDo, hv]

theorem singleShot_exit (cfg : Config) (env : Env) :
    (singleShot cfg env).exit =
      if env.outcome none = Outcome.success ∧
          validateHeaders (mainHeaders [] cfg.headers).1 = true then Exit.returned
      else Exit.osExit 1 := by
  unfold singleShot
  cases hv : validateHeaders (mainHeaders [] cfg.headers).1 <;>
    cases env.outcome none <;> simp [clientDo, hv]

/-- An observation that counts none of the lines the single-shot block prints
and none of its log lines counts, in that block, the request built and the
request sent. -/
theorem singleShot_countP (p : Event → Bool) (cfg : Config) (env : Env)
    (h1 : ∀ l, p (Event.errCreate l) = false) (h2 : ∀ l s, p (Event.warnHeader l s) = false)
    (h3 : ∀ m u, p (Event.echoRequest m u) = false) (h4 : ∀ k v, p (Event.echoHeader k v) = false)
    (h5 : ∀ b, p (Event.echoBody b) = false) (h6 : p Event.echoEnd = false)
    (h7 : ∀ l, p (Event.errSend l) = false) (h8 : ∀ l s, p (Event.status l s) = false)
    (h9 : ∀ k v, p (Event.respHeader k v) = false) (h10 : p Event.respEnd = false)
    (h11 : ∀ b, p (Event.respBody b) = false) (h12 : ∀ l, p (Event.errRead l) = false)
    (h13 : ∀ l, p (Event.bodyClose l) = false) :
    List.countP p (singleShot cfg env).coordinator =
      (if p (Event.newRequest none (env.ToUpper cfg.method) cfg.url
          (if cfg.body ≠ [] then some cfg.body else none)) then 1 else 0) +
      (if env.outcome none ≠ Outcome.buildFail ∧
          p (Event.send none (mainHeaders [] cfg.headers).1) then 1 else 0) := by
  have hw := countP_mainHeaders p h2 [] cfg.headers
  have he := countP_echoHeaders p h4 (mainHeaders [] cfg.headers).1
  have hr := countP_respHeaders p h9 (env.response none).header
  unfold singleShot
  by_cases hb : cfg.body = [] <;>
    cases hv : validateHeaders (mainHeaders [] cfg.headers).1 <;>
    cases env.outcome none <;>
    simp [clientDo, hv, List.countP_cons, List.countP_append, hw, he, hr, hb, h1, h3, h5, h6,
      h7, h8, h10, h11, h12, h13, Nat.add_comm]

theorem singleShot_executions (cfg : Config) (env : Env) :
    executions (singleShot cfg env).coordinator = 1 := by
  unfold executions
  rw [singleShot_countP] <;> simp

theorem singleShot_sends (cfg : Config) (env : Env) :
    sends (singleShot cfg env).coordinator =
      if env.outcome none = Outcome.buildFail then 0 else 1 := by
  unfold sends
  rw [singleShot_countP] <;> simp

theorem singleShot_reports (cfg : Config) (env : Env) :
    reports (singleShot cfg env).coordinator = 0 := by
  unfold reports
  rw [singleShot_countP] <;> simp

theorem singleShot_count (e : Event) (cfg : Config) (env : Env)
    (h : e = Event.tickWait ∨ e = Event.wgDone ∨ e = Event.wgWait ∨ (∃ d, e = Event.wgAdd d) ∨
      (∃ i, e = Event.go i)) :
    List.count e (singleShot cfg env).coordinator = 0 := by
  rw [List.count, singleShot_countP] <;>
    rcases h with rfl | rfl | rfl | ⟨d, rfl⟩ | ⟨i, rfl⟩ <;> simp

theorem singleShot_not_mem (e : Event) (cfg : Config) (env : Env)
    (h : e = Event.tickWait ∨ e = Event.wgDone ∨ e = Event.wgWait ∨ (∃ d, e = Event.wgAdd d) ∨
      (∃ i, e = Event.go i)) :
    e ∉ (singleShot cfg env).coordinator := by
  rw [← List.count_eq_zero]
  exact singleShot_count e cfg env h

theorem singleShot_launched (cfg : Config) (env : Env) :
    launched (singleShot cfg env).coordinator = [] := by
  unfold launched
  rw [List.filterMap_eq_nil_iff]
  intro e he
  cases e <;> simp
  exact singleShot_not_mem _ cfg env (Or.inr (Or.inr (Or.inr (Or.inr ⟨_, rfl⟩)))) he

theorem singleShot_wgCounter (cfg : Config) (env : Env) :
    wgCounter (singleShot cfg env).coordinator = 0 := by
  apply wgCounter_eq_zero
  intro e he
  constructor
  · intro d hd
    exact singleShot_not_mem _ cfg env (Or.inr (Or.inr (Or.inr (Or.inl ⟨d, hd⟩)))) he
  · intro hd
    exact singleShot_not_mem _ cfg env (Or.inr (Or.inl hd)) he

/-! ## The events of the dispatch loop -/

theorem loop_launched (pre : List Event) (hp : launched pre = []) (l : List Int) :
    launched ((l.map (fun j => pre ++ [Event.wgAdd 1, Event.go j])).flatten) = l := by
  induction l with
  | nil => rfl
  | cons a l ih =>
    unfold launched at *
    simp only [List.map_cons, List.flatten_cons, List.filterMap_append, hp, ih]
    simp [List.filterMap_cons]

theorem loop_wgCounter (pre : List Event) (hp : wgCounter pre = 0) (l : List Int) :
    wgCounter ((l.map (fun j => pre ++ [Event.wgAdd 1, Event.go j])).flatten) = l.length := by
  induction l with
  | nil => rfl
  | cons a l ih =>
    simp only [List.map_cons, List.flatten_cons, wgCounter_append, hp, ih, wgCounter,
      List.length_cons]
    push_cast
    ring

theorem loop_countP (p : Event → Bool) (pre : List Event) (l : List Int)
    (hg : ∀ j, p (Event.go j) = false) :
    List.countP p ((l.map (fun j => pre ++ [Event.wgAdd 1, Event.go j])).flatten) =
      l.length * (List.countP p pre + if p (Event.wgAdd 1) then 1 else 0) := by
  induction l with
  | nil => simp
  | cons a l ih =>
    simp only [List.map_cons, List.flatten_cons, List.countP_append, ih, List.length_cons,
      List.countP_cons, hg, List.countP_nil]
    simp
    ring

theorem workers_wgCounter (cfg : Config) (env : Env) (l : List Int) :
    wgCounter ((l.map (fun j =>
      makeRequest cfg.method cfg.url cfg.body cfg.headers true j env)).flatten) =
      -(l.length : Int) := by
  induction l with
  | nil => rfl
  | cons a l ih =>
    simp only [List.map_cons, List.flatten_cons, wgCounter_append, ih, makeRequest_wgCounter,
      List.length_cons]
    push_cast
    ring

theorem workers_executions (cfg : Config) (env : Env) (l : List Int) :
    executions ((l.map (fun j =>
      makeRequest cfg.method cfg.url cfg.body cfg.headers true j env)).flatten) = l.length := by
  induction l with
  | nil => rfl
  | cons a l ih =>
    have h1 := makeRequest_executions cfg.method cfg.url cfg.body cfg.headers true a env
    unfold executions at *
    simp only [List.map_cons, List.flatten_cons, List.countP_append, ih, h1, List.length_cons]
    ring

theorem ordinals_length (n : Int) : (ordinals n).length = n.toNat := by
  simp [ordinals]

theorem mem_ordinals (n i : Int) : i ∈ ordinals n ↔ 1 ≤ i ∧ i ≤ n := by
  unfold ordinals
  rw [List.mem_map]
  constructor
  · rintro ⟨k, hk, rfl⟩
    have := List.mem_range.1 hk
    omega
  · rintro ⟨h1, h2⟩
    exact ⟨(i - 1).toNat, List.mem_range.2 (by omega), by omega⟩

theorem ordinals_sorted (n : Int) : (ordinals n).Pairwise (· < ·) := by
  unfold ordinals
  rw [List.pairwise_map]
  exact (List.pairwise_lt_range _).imp (fun h => by omega)

/-- The case analysis of `main`. -/
theorem main_cases (cfg : Config) (env : Env) :
    (cfg.url = [] ∧ main cfg env = ⟨[Event.usage], [], .osExit 1⟩) ∨
    (cfg.url ≠ [] ∧ cfg.requests ≤ 1 ∧ main cfg env = singleShot cfg env) ∨
    (cfg.url ≠ [] ∧ 2 ≤ cfg.requests ∧ 0 < cfg.perSecond ∧ tickInterval cfg.perSecond ≤ 0 ∧
      main cfg env = ⟨[], [], .panicked⟩) ∨
    (cfg.url ≠ [] ∧ 2 ≤ cfg.requests ∧
      ¬ (0 < cfg.perSecond ∧ tickInterval cfg.perSecond ≤ 0) ∧
      main cfg env = dispatcher cfg env ∧
      (dispatcher cfg env).coordinator =
        (if 0 < cfg.perSecond then [Event.newTicker (tickInterval cfg.perSecond)] else []) ++
          [Event.banner cfg.requests cfg.url] ++
          ((ordinals cfg.requests).map (fun j =>
            (if 0 < cfg.perSecond then [Event.tickWait] else []) ++
              [Event.wgAdd 1, Event.go j])).flatten ++
          [Event.wgWait, Event.summary cfg.requests] ∧
      (dispatcher cfg env).workers = (ordinals cfg.requests).map
          (fun j => makeRequest cfg.method cfg.url cfg.body cfg.headers true j env) ∧
      (dispatcher cfg env).exit = .returned) := by
  by_cases hu : cfg.url = []
  · exact Or.inl ⟨hu, by simp [main, hu]⟩
  · by_cases hr : cfg.requests ≤ 1
    · exact Or.inr (Or.inl ⟨hu, hr, by simp [main, hu, hr]⟩)
    · have hm : main cfg env = dispatcher cfg env := by simp [main, hu, hr]
      by_cases hp : 0 < cfg.perSecond ∧ tickInterval cfg.perSecond ≤ 0
      · refine Or.inr (Or.inr (Or.inl ⟨hu, by omega, hp.1, hp.2, ?_⟩))
        rw [hm]
        simp [dispatcher, hp.1, hp.2]
      · refine Or.inr (Or.inr (Or.inr ⟨hu, by omega, hp, hm, ?_⟩))
        rw [dispatcher_eq cfg env hp]
        exact ⟨rfl, rfl, rfl⟩

/-- C1: every execution launched by the dispatcher decrements the outstanding-work
barrier exactly once, as its last action, whatever its outcome (request
construction fails, send fails, body drain fails, or success); the coordinator
increments the barrier once per launch and never decrements it; so in every
schedule `tr` of the run, once all launched executions have finished the
barrier counter is zero. -/
theorem barrier_decremented_exactly_once (cfg : Config) (env : Env) (tr : List Event)
    (htr : tr.Perm (main cfg env).events) :
    (∀ (m u b : Str) (hs : List Str) (n : Int) (e : Env),
        (makeRequest m u b hs true n e).count Event.wgDone = 1 ∧
        (makeRequest m u b hs true n e).getLast? = some Event.wgDone) ∧
    (∀ w ∈ (main cfg env).workers, w.count Event.wgDone = 1) ∧
    (main cfg env).coordinator.count (Event.wgAdd 1) = (main cfg env).workers.length ∧
    (launched (main cfg env).coordinator).length = (main cfg env).workers.length ∧
    (main cfg env).coordinator.count Event.wgDone = 0 ∧
    wgCounter (main cfg env).coordinator = (main cfg env).workers.length ∧
    wgCounter tr = 0 := by
  have hone : ∀ (m u b : Str) (hs : List Str) (n : Int) (e : Env),
      (makeRequest m u b hs true n e).count Event.wgDone = 1 := by
    intro m u b hs n e
    have := makeRequest_wgDone m u b hs n e
    rw [List.count]
    convert this using 2
  refine ⟨fun m u b hs n e => ⟨hone m u b hs n e, makeRequest_getLast m u b hs n e⟩, ?_⟩
  rw [wgCounter_perm htr, Run.events, wgCounter_append]
  rcases main_cases cfg env with ⟨_, hm⟩ | ⟨_, _, hm⟩ | ⟨_, _, _, _, hm⟩ |
    ⟨_, _, _, hm, hc, hw, _⟩
  · rw [hm]
    simp [launched, wgCounter]
  · rw [hm, singleShot_workers, singleShot_launched, singleShot_wgCounter,
      singleShot_count _ _ _ (Or.inr (Or.inl rfl)),
      singleShot_count _ _ _ (Or.inr (Or.inr (Or.inr (Or.inl ⟨1, rfl⟩))))]
    simp [wgCounter]
  · rw [hm]
    simp [launched, wgCounter]
  · rw [hm, hc, hw]
    have hl : (launched ((if 0 < cfg.perSecond then [Event.newTicker (tickInterval cfg.perSecond)]
          else []) ++ [Event.banner cfg.requests cfg.url] ++
          ((ordinals cfg.requests).map (fun j =>
            (if 0 < cfg.perSecond then [Event.tickWait] else []) ++
              [Event.wgAdd 1, Event.go j])).flatten ++
          [Event.wgWait, Event.summary cfg.requests])) = ordinals cfg.requests := by
      have := loop_launched (if 0 < cfg.perSecond then [Event.tickWait] else [])
        (by split <;> rfl) (ordinals cfg.requests)
      unfold launched at *
      simp only [List.filterMap_append, this]
      split <;> simp [List.filterMap_cons]
    have hwc := loop_wgCounter (if 0 < cfg.perSecond then [Event.tickWait] else [])
        (by split <;> rfl) (ordinals cfg.requests)
    have hwk := workers_wgCounter cfg env (ordinals cfg.requests)
    have hca := loop_countP (fun e => e == Event.wgAdd 1)
      (if 0 < cfg.perSecond then [Event.tickWait] else []) (ordinals cfg.requests) (by simp)
    have hcd := loop_countP (fun e => e == Event.wgDone)
      (if 0 < cfg.perSecond then [Event.tickWait] else []) (ordinals cfg.requests) (by simp)
    refine ⟨?_, ?_, ?_, ?_, ?_, ?_⟩
    · intro w hw1
      rcases List.mem_map.1 hw1 with ⟨j, _, rfl⟩
      exact hone _ _ _ _ _ _
    · simp only [List.count, List.countP_append, hca]
      split <;> simp [List.countP_cons]
    · rw [hl, List.length_map]
    · simp only [List.count, List.countP_append, hcd]
      split <;> simp [List.countP_cons]
    · simp only [wgCounter_append, hwc, List.length_map]
      split <;> simp [wgCounter]
    · simp only [wgCounter_append, hwc, hwk]
      split <;> simp [wgCounter]

/-- C2, as stated, fails for `--requests 0`: the single-shot block runs, one
request is built and sent, and no completion summary is printed. -/
theorem zero_requests_sends_one_request :
    executions (main (exampleConfig 0 0) (exampleEnv .success)).events = 1 ∧
    sends (main (exampleConfig 0 0) (exampleEnv .success)).events = 1 ∧
    Event.summary 0 ∉ (main (exampleConfig 0 0) (exampleEnv .success)).coordinator := by
  decide

theorem getLast?_append_pair (l : List Event) (a b : Event) :
    (l ++ [a, b]).getLast? = some b := by
  have : l ++ [a, b] = (l ++ [a]) ++ [b] := by simp
  rw [this, List.getLast?_concat]

theorem dispatcher_executions (cfg : Config) (env : Env)
    (hp : ¬ (0 < cfg.perSecond ∧ tickInterval cfg.perSecond ≤ 0)) :
    executions (dispatcher cfg env).coordinator = 0 ∧
    sends (dispatcher cfg env).coordinator = 0 ∧
    executions (dispatcher cfg env).events = cfg.requests.toNat := by
  have e := dispatcher_eq cfg env hp
  have h1 := loop_countP (fun e => match e with | .newRequest _ _ _ _ => true | _ => false)
      (if 0 < cfg.perSecond then [Event.tickWait] else []) (ordinals cfg.requests)
      (fun _ => rfl)
  have h2 := loop_countP (fun e => match e with | .send _ _ => true | _ => false)
      (if 0 < cfg.perSecond then [Event.tickWait] else []) (ordinals cfg.requests)
      (fun _ => rfl)
  have h3 := workers_executions cfg env (ordinals cfg.requests)
  have c1 : executions (dispatcher cfg env).coordinator = 0 := by
    rw [e]
    simp only [executions, List.countP_append, h1]
    split <;> simp [List.countP_cons]
  refine ⟨c1, ?_, ?_⟩
  · rw [e]
    simp only [sends, List.countP_append, h2]
    split <;> simp [List.countP_cons]
  · have : executions (dispatcher cfg env).events =
        executions (dispatcher cfg env).coordinator +
          executions (dispatcher cfg env).workers.flatten := by
      simp [executions, Run.events, List.countP_append]
    rw [this, c1, e]
    simp only [h3, ordinals_length]
    simp

theorem dispatcher_launched (cfg : Config) (env : Env)
    (hp : ¬ (0 < cfg.perSecond ∧ tickInterval cfg.perSecond ≤ 0)) :
    launched (dispatcher cfg env).coordinator = ordinals cfg.requests := by
  rw [dispatcher_eq cfg env hp]
  have := loop_launched (if 0 < cfg.perSecond then [Event.tickWait] else [])
    (by split <;> rfl) (ordinals cfg.requests)
  unfold launched at *
  simp only [List.filterMap_append, this]
  split <;> simp [List.filterMap_cons]

/-- C2, amended: with a non-empty url and a rate of at most 10^9 per second,
a run with `--requests N` performs exactly `N` request executions for every
`N ≥ 1`, and for `N ≥ 2` launches the ordinals `1..N` and ends by printing the
completion summary for `N`; for `N = 0` the single-shot block runs: exactly
one request execution, no goroutine, and neither banner nor summary. -/
theorem request_executions_per_count (cfg : Config) (env : Env) (hu : cfg.url ≠ [])
    (hr : cfg.perSecond ≤ 1000000000) :
    (1 ≤ cfg.requests → executions (main cfg env).events = cfg.requests.toNat) ∧
    (2 ≤ cfg.requests →
      launched (main cfg env).coordinator = ordinals cfg.requests ∧
      (main cfg env).workers.length = cfg.requests.toNat ∧
      (main cfg env).coordinator.getLast? = some (Event.summary cfg.requests)) ∧
    (cfg.requests = 0 →
      executions (main cfg env).events = 1 ∧ (main cfg env).workers = [] ∧
      reports (main cfg env).coordinator = 0) := by
  have hp : ¬ (0 < cfg.perSecond ∧ tickInterval cfg.perSecond ≤ 0) := by
    rintro ⟨h0, h1⟩
    have := tickInterval_pos _ h0 hr
    omega
  have hss : cfg.requests ≤ 1 → main cfg env = singleShot cfg env := by
    intro h
    simp [main, hu, h]
  have hss1 : cfg.requests ≤ 1 → executions (main cfg env).events = 1 := by
    intro h
    rw [hss h, Run.events, singleShot_workers]
    simpa using singleShot_executions cfg env
  have hd : 2 ≤ cfg.requests → main cfg env = dispatcher cfg env := by
    intro h
    have : ¬ cfg.requests ≤ 1 := by omega
    simp [main, hu, this]
  refine ⟨?_, ?_, ?_⟩
  · intro h1
    by_cases h2 : 2 ≤ cfg.requests
    · rw [hd h2]
      exact (dispatcher_executions cfg env hp).2.2
    · have h3 : cfg.requests = 1 := by omega
      rw [hss1 (by omega), h3]
      rfl
  · intro h2
    rw [hd h2]
    refine ⟨dispatcher_launched cfg env hp, ?_, ?_⟩ <;> rw [dispatcher_eq cfg env hp]
    · simp [ordinals_length]
    · exact getLast?_append_pair _ _ _
  · intro h0
    refine ⟨hss1 (by omega), ?_, ?_⟩
    · rw [hss (by omega), singleShot_workers]
    · rw [hss (by omega), singleShot_reports]

/-- The amended C2 at `--requests 3`: three request executions. -/
theorem request_executions_per_count_witness :
    (exampleConfig 3 0).url ≠ [] ∧ (exampleConfig 3 0).perSecond ≤ 1000000000 ∧
    executions (main (exampleConfig 3 0) (exampleEnv .success)).events = 3 :=
  ⟨by decide, by decide,
    (request_executions_per_count (exampleConfig 3 0) (exampleEnv .success) (by decide)
      (by decide)).1 (by decide)⟩

/-- C1 on three requests that all fail to send, in the schedule that reverses
the events of the run: the barrier counter ends at zero. -/
theorem barrier_decremented_exactly_once_witness :
    (main (exampleConfig 3 5) (exampleEnv .sendFail)).events.reverse.Perm
      (main (exampleConfig 3 5) (exampleEnv .sendFail)).events ∧
    wgCounter (main (exampleConfig 3 5) (exampleEnv .sendFail)).events.reverse = 0 :=
  ⟨List.reverse_perm _,
    (barrier_decremented_exactly_once (exampleConfig 3 5) (exampleEnv .sendFail) _
      (List.reverse_perm _)).2.2.2.2.2.2⟩

/-- C3: with a non-empty url, every count `N ≤ 1` (zero and negative counts
included) takes the single-shot block: exactly one request execution, run by
the main goroutine itself (sent once unless its construction fails), no
goroutine launched, no wait on the rate gate and no ticker whatever
`--per-second` is, and neither banner nor summary printed; every `N ≥ 2` takes
the dispatcher, whose main goroutine builds and sends no request itself. -/
theorem single_shot_iff_count_le_one (cfg : Config) (env : Env) (hu : cfg.url ≠ []) :
    (cfg.requests ≤ 1 →
      main cfg env = singleShot cfg env ∧
      executions (main cfg env).coordinator = 1 ∧
      sends (main cfg env).coordinator =
        (if env.outcome none = Outcome.buildFail then 0 else 1) ∧
      (main cfg env).workers = [] ∧
      launched (main cfg env).coordinator = [] ∧
      (main cfg env).coordinator.count Event.tickWait = 0 ∧
      (∀ d, Event.newTicker d ∉ (main cfg env).coordinator) ∧
      reports (main cfg env).coordinator = 0) ∧
    (2 ≤ cfg.requests →
      main cfg env = dispatcher cfg env ∧
      executions (main cfg env).coordinator = 0 ∧
      sends (main cfg env).coordinator = 0 ∧
      (∀ k, echoLinesFor k (main cfg env).coordinator = 0)) := by
  constructor
  · intro h
    have hm : main cfg env = singleShot cfg env := by simp [main, hu, h]
    rw [hm]
    refine ⟨rfl, singleShot_executions cfg env, singleShot_sends cfg env,
      singleShot_workers cfg env, singleShot_launched cfg env,
      singleShot_count _ cfg env (Or.inl rfl), ?_, singleShot_reports cfg env⟩
    intro d hd
    have : List.count (Event.newTicker d) (singleShot cfg env).coordinator = 0 := by
      rw [List.count, singleShot_countP] <;> simp
    exact (List.count_eq_zero.1 this) hd
  · intro h
    have hr : ¬ cfg.requests ≤ 1 := by omega
    have hm : main cfg env = dispatcher cfg env := by simp [main, hu, hr]
    rw [hm]
    by_cases hp : 0 < cfg.perSecond ∧ tickInterval cfg.perSecond ≤ 0
    · have : dispatcher cfg env = ⟨[], [], .panicked⟩ := by
        simp [dispatcher, hp.1, hp.2]
      rw [this]
      exact ⟨rfl, rfl, rfl, fun _ => rfl⟩
    · refine ⟨rfl, (dispatcher_executions cfg env hp).1, (dispatcher_executions cfg env hp).2.1,
        ?_⟩
      intro k
      have h1 := loop_countP
        (fun e => match e with | .echoHeader k1 _ => decide (k1 = k) | _ => false)
        (if 0 < cfg.perSecond then [Event.tickWait] else []) (ordinals cfg.requests)
        (fun _ => rfl)
      rw [dispatcher_eq cfg env hp]
      simp only [echoLinesFor, List.countP_append, h1]
      split <;> simp [List.countP_cons]

/-- C3 at `--requests -4 --per-second 5`: the single-shot block, one request
execution. -/
theorem single_shot_iff_count_le_one_witness :
    (exampleConfig (-4) 5).url ≠ [] ∧
    executions (main (exampleConfig (-4) 5) (exampleEnv .success)).coordinator = 1 ∧
    (main (exampleConfig (-4) 5) (exampleEnv .success)).coordinator.count Event.tickWait = 0 :=
  ⟨by decide,
    ((single_shot_iff_count_le_one (exampleConfig (-4) 5) (exampleEnv .success)
      (by decide)).1 (by decide)).2.1,
    ((single_shot_iff_count_le_one (exampleConfig (-4) 5) (exampleEnv .success)
      (by decide)).1 (by decide)).2.2.2.2.2.1⟩

/-- C7, as stated, fails when the single request is built and sent (its
headers are valid and a response arrives) but reading the response body
fails: the exit status is 1. -/
theorem read_failure_exits_nonzero :
    (exampleConfig 1 0).url ≠ [] ∧
    (exampleEnv .drainFail).outcome none ≠ Outcome.buildFail ∧
    (exampleEnv .drainFail).outcome none ≠ Outcome.sendFail ∧
    clientDo (mainHeaders [] (exampleConfig 1 0).headers).1
      ((exampleEnv .drainFail).outcome none) ≠ Outcome.sendFail ∧
    responses (main (exampleConfig 1 0) (exampleEnv .drainFail)).coordinator = 1 ∧
    (main (exampleConfig 1 0) (exampleEnv .drainFail)).exit.status = 1 := by
  decide

/-- C7, amended: with a rate of at most 10^9 per second, the exit status is
non-zero exactly when the url is missing, or the run is in the single-shot
block and request construction, sending or reading the response body fails
(sending fails when the network fails or when the client refuses the header
map); in particular in the concurrent path it is 0 for every combination of
per-request outcomes. -/
theorem exit_status_nonzero_iff (cfg : Config) (env : Env)
    (hr : cfg.perSecond ≤ 1000000000) :
    ((main cfg env).exit.status ≠ 0 ↔
      cfg.url = [] ∨
        (cfg.requests ≤ 1 ∧
          (env.outcome none ≠ Outcome.success ∨
            validateHeaders (mainHeaders [] cfg.headers).1 = false))) ∧
    (cfg.url ≠ [] → 2 ≤ cfg.requests → (main cfg env).exit.status = 0) := by
  have hp : ¬ (0 < cfg.perSecond ∧ tickInterval cfg.perSecond ≤ 0) := by
    rintro ⟨h0, h1⟩
    have := tickInterval_pos _ h0 hr
    omega
  rcases main_cases cfg env with ⟨hu, hm⟩ | ⟨hu, hle, hm⟩ | ⟨_, _, h0, h1, _⟩ |
    ⟨hu, h2, _, hm, _, _, he⟩
  · rw [hm]
    simp [Exit.status, hu]
  · rw [hm, singleShot_exit]
    refine ⟨?_, fun _ h2 => absurd hle (by omega)⟩
    by_cases ho : env.outcome none = Outcome.success <;>
      cases hv : validateHeaders (mainHeaders [] cfg.headers).1 <;>
      simp [ho, Exit.status, hu, hle]
  · exact absurd ⟨h0, h1⟩ hp
  · rw [hm, he]
    have : ¬ cfg.requests ≤ 1 := by omega
    simp [Exit.status, hu, this]

/-- The amended C7 on five concurrent requests that all fail to send: exit
status 0. -/
theorem exit_status_nonzero_iff_witness :
    (exampleConfig 5 10).perSecond ≤ 1000000000 ∧
    (main (exampleConfig 5 10) (exampleEnv .sendFail)).exit.status = 0 :=
  ⟨by decide,
    (exit_status_nonzero_iff (exampleConfig 5 10) (exampleEnv .sendFail) (by decide)).2
      (by decide) (by decide)⟩

/-- C8 at `--requests 2 --per-second 1000000001`: the interval of the ticker
is zero, `time.NewTicker` panics, and no ordinal is launched, where the claim
has the ordinals 1 and 2 launched. -/
theorem no_launch_above_one_tick_per_nanosecond :
    launched (main (exampleConfig 2 1000000001) (exampleEnv .success)).coordinator = [] ∧
    (main (exampleConfig 2 1000000001) (exampleEnv .success)).workers = [] ∧
    ordinals 2 = [1, 2] := by
  decide

/-- C10 at `--per-second 1000000001`: the interval computed for the ticker is
zero nanoseconds, not a positive duration, and the run ends in the panic of
`time.NewTicker` with exit status 2. -/
theorem tick_interval_zero_above_one_per_nanosecond :
    tickInterval 1000000001 = 0 ∧
    (main (exampleConfig 2 1000000001) (exampleEnv .success)).exit = Exit.panicked ∧
    (main (exampleConfig 2 1000000001) (exampleEnv .success)).exit.status = 2 := by
  decide

/-- Every rate above 10^9 per second ends a run of two or more requests in the
panic of `time.NewTicker`, before anything is printed or launched. -/
theorem dispatcher_panics_above_one_tick_per_nanosecond (cfg : Config) (env : Env)
    (hu : cfg.url ≠ []) (h2 : 2 ≤ cfg.requests) (hr : 1000000000 < cfg.perSecond) :
    main cfg env = ⟨[], [], .panicked⟩ := by
  have h0 : 0 < cfg.perSecond := by omega
  have hn : ¬ cfg.requests ≤ 1 := by omega
  simp [main, hu, hn, dispatcher, h0, tickInterval_big _ hr]

/-- The order of the dispatch loop when the ticker, if any, can be created
(a rate of at most 10^9 per second): the launched ordinals are `1, ..., N` in
increasing order; the main goroutine does, for each ordinal in turn, one tick
wait if the rate is positive, one increment of the barrier and the launch,
between the banner and the final wait and summary. -/
theorem dispatch_order (cfg : Config) (env : Env) (hu : cfg.url ≠ []) (h2 : 2 ≤ cfg.requests)
    (hr : cfg.perSecond ≤ 1000000000) :
    (main cfg env).coordinator =
      (if 0 < cfg.perSecond then [Event.newTicker (tickInterval cfg.perSecond)] else []) ++
        [Event.banner cfg.requests cfg.url] ++
        ((ordinals cfg.requests).map (fun j =>
          (if 0 < cfg.perSecond then [Event.tickWait] else []) ++
            [Event.wgAdd 1, Event.go j])).flatten ++
        [Event.wgWait, Event.summary cfg.requests] ∧
    launched (main cfg env).coordinator = ordinals cfg.requests ∧
    (ordinals cfg.requests).Pairwise (· < ·) ∧
    (∀ i, i ∈ ordinals cfg.requests ↔ 1 ≤ i ∧ i ≤ cfg.requests) ∧
    (main cfg env).coordinator.count Event.tickWait =
      (if 0 < cfg.perSecond then cfg.requests.toNat else 0) := by
  have hp : ¬ (0 < cfg.perSecond ∧ tickInterval cfg.perSecond ≤ 0) := by
    rintro ⟨h0, h1⟩
    have := tickInterval_pos _ h0 hr
    omega
  have hm : main cfg env = dispatcher cfg env := by
    have : ¬ cfg.requests ≤ 1 := by omega
    simp [main, hu, this]
  have hc := loop_countP (fun e => e == Event.tickWait)
      (if 0 < cfg.perSecond then [Event.tickWait] else []) (ordinals cfg.requests) (by simp)
  refine ⟨?_, ?_, ordinals_sorted _, mem_ordinals _, ?_⟩
  · rw [hm, dispatcher_eq cfg env hp]
  · rw [hm, dispatcher_launched cfg env hp]
  · rw [hm, dispatcher_eq cfg env hp]
    simp only [List.count, List.countP_append, hc, ordinals_length]
    split <;> simp [List.countP_cons]

/-- C4: a header entry that contains a colon is cut at its first colon: the key
is the text before the first colon and the value the whole text after it
(later colons included), each with the surrounding white space trimmed; the
loop of the executor and the loop of the single-shot block apply the same key
and value, and build the same header map from every list of entries;
"Key: Value" gives key "Key" and value "Value". -/
theorem header_cut_at_first_colon (h : Str) (hc : ':' ∈ h) (n : Int) (hdr : Header)
    (rest : List Str) :
    h = beforeColon h ++ ':' :: afterColon h ∧ ':' ∉ beforeColon h ∧
    SplitN h ':' 2 = [beforeColon h, afterColon h] ∧
    makeRequestHeaders n hdr (h :: rest) =
      makeRequestHeaders n
        (headerSet hdr (TrimSpace (beforeColon h)) (TrimSpace (afterColon h))) rest ∧
    mainHeaders hdr (h :: rest) =
      mainHeaders (headerSet hdr (TrimSpace (beforeColon h)) (TrimSpace (afterColon h))) rest ∧
    IsTrimOf (TrimSpace (beforeColon h)) (beforeColon h) ∧
    IsTrimOf (TrimSpace (afterColon h)) (afterColon h) ∧
    (∀ hs : List Str, (makeRequestHeaders n hdr hs).1 = (mainHeaders hdr hs).1) ∧
    (SplitN "Key: Value".toList ':' 2).map TrimSpace = ["Key".toList, "Value".toList] := by
  have e := SplitN_two_of_append (beforeColon h) (afterColon h) (colon_not_mem_before h)
  rw [← before_append_after h hc] at e
  refine ⟨before_append_after h hc, colon_not_mem_before h, e,
    makeRequestHeaders_colon n hdr h rest hc, mainHeaders_colon hdr h rest hc,
    TrimSpace_isTrimOf _, TrimSpace_isTrimOf _, ?_, by decide⟩
  intro hs
  rw [makeRequestHeaders_eq, mainHeaders_eq]

/-- C4 on "Host: localhost:8080": the later colon stays in the value. -/
theorem header_cut_at_first_colon_witness :
    ':' ∈ "Host: localhost:8080".toList ∧
    makeRequestHeaders 1 [] ["Host: localhost:8080".toList] =
      makeRequestHeaders 1
        (headerSet [] (TrimSpace (beforeColon "Host: localhost:8080".toList))
          (TrimSpace (afterColon "Host: localhost:8080".toList))) [] ∧
    TrimSpace (afterColon "Host: localhost:8080".toList) = "localhost:8080".toList :=
  ⟨by decide,
    (header_cut_at_first_colon "Host: localhost:8080".toList (by decide) 1 [] []).2.2.2.1,
    by decide⟩

theorem warnings_makeRequestHeaders (n : Int) (hdr : Header) (hs : List Str) :
    warnings (makeRequestHeaders n hdr hs).2 = (makeRequestHeaders n hdr hs).2 := by
  unfold warnings
  rw [List.filter_eq_self]
  intro e he
  rcases mem_makeRequestHeaders _ _ _ _ he with ⟨s, rfl⟩
  rfl

theorem warnings_mainHeaders (hdr : Header) (hs : List Str) :
    warnings (mainHeaders hdr hs).2 = (mainHeaders hdr hs).2 := by
  unfold warnings
  rw [List.filter_eq_self]
  intro e he
  rcases mem_mainHeaders _ _ _ he with ⟨s, rfl⟩
  rfl

theorem warnings_echoHeaders (hdr : Header) : warnings (echoHeaders hdr) = [] := by
  unfold warnings
  rw [List.filter_eq_nil_iff]
  intro e he
  rcases mem_echoHeaders _ _ he with ⟨k, v, rfl⟩
  simp

theorem warnings_respHeaders (hdr : Header) : warnings (respHeaders hdr) = [] := by
  unfold warnings
  rw [List.filter_eq_nil_iff]
  intro e he
  rcases mem_respHeaders _ _ he with ⟨k, v, rfl⟩
  simp

theorem warnings_append (a b : List Event) : warnings (a ++ b) = warnings a ++ warnings b := by
  simp [warnings]

theorem makeRequest_after_headers (m u b : Str) (hs : List Str) (wg : Bool) (n : Int)
    (env : Env) (ho : env.outcome (some n) ≠ Outcome.buildFail) :
    warnings (makeRequest m u b hs wg n env) = (makeRequestHeaders n [] hs).2 ∧
    (∃ tail, makeRequest m u b hs wg n env =
      Event.newRequest (some n) (env.ToUpper m) u (if b ≠ [] then some b else none) ::
        ((makeRequestHeaders n [] hs).2 ++
          Event.send (some n) (makeRequestHeaders n [] hs).1 :: tail)) ∧
    responses (makeRequest m u b hs wg n env) =
      (if validateHeaders (makeRequestHeaders n [] hs).1 = true ∧
          env.outcome (some n) ≠ Outcome.sendFail then 1 else 0) ∧
    (validateHeaders (makeRequestHeaders n [] hs).1 = false →
      Event.errSend (some n) ∈ makeRequest m u b hs wg n env) := by
  have hw := warnings_makeRequestHeaders n [] hs
  have hc := countP_makeRequestHeaders
    (fun e => match e with | .status _ _ => true | _ => false) (fun _ _ => rfl) n [] hs
  unfold warnings at hw ⊢
  unfold responses
  unfold makeRequest
  cases hv : validateHeaders (makeRequestHeaders n [] hs).1 <;>
    cases h : env.outcome (some n)
  all_goals try (simp [h] at ho)
  all_goals
    refine ⟨?_, ?_, ?_, ?_⟩
    · cases wg <;> simp [clientDo, hv, List.filter_cons, hw]
    · simp [clientDo, hv]
    · cases wg <;> simp [clientDo, hv, List.countP_cons, List.countP_append, hc]
    · simp [clientDo, hv]

theorem singleShot_after_headers (cfg : Config) (env : Env)
    (ho : env.outcome none ≠ Outcome.buildFail) :
    warnings (singleShot cfg env).coordinator = (mainHeaders [] cfg.headers).2 ∧
    (∃ mid tail, (singleShot cfg env).coordinator =
      Event.newRequest none (env.ToUpper cfg.method) cfg.url
          (if cfg.body ≠ [] then some cfg.body else none) ::
        ((mainHeaders [] cfg.headers).2 ++ mid ++
          Event.send none (mainHeaders [] cfg.headers).1 :: tail)) ∧
    responses (singleShot cfg env).coordinator =
      (if validateHeaders (mainHeaders [] cfg.headers).1 = true ∧
          env.outcome none ≠ Outcome.sendFail then 1 else 0) ∧
    (validateHeaders (mainHeaders [] cfg.headers).1 = false →
      Event.errSend none ∈ (singleShot cfg env).coordinator ∧
      (singleShot cfg env).exit = Exit.osExit 1) := by
  have hw := warnings_mainHeaders [] cfg.headers
  have he := warnings_echoHeaders (mainHeaders [] cfg.headers).1
  have hr := warnings_respHeaders (env.response none).header
  have cw := countP_mainHeaders
    (fun e => match e with | .status _ _ => true | _ => false) (fun _ _ => rfl) []
    cfg.headers
  have ce := countP_echoHeaders
    (fun e => match e with | .status _ _ => true | _ => false) (fun _ _ => rfl)
    (mainHeaders [] cfg.headers).1
  have cr := countP_respHeaders
    (fun e => match e with | .status _ _ => true | _ => false) (fun _ _ => rfl)
    (env.response none).header
  unfold warnings at hw he hr ⊢
  unfold responses
  unfold singleShot
  cases hv : validateHeaders (mainHeaders [] cfg.headers).1 <;>
    cases h : env.outcome none
  all_goals try (simp [h] at ho)
  all_goals
    refine ⟨?_, ⟨Event.echoRequest (requestMethod env cfg.method) cfg.url ::
        (echoHeaders (mainHeaders [] cfg.headers).1 ++
        ((if cfg.body ≠ [] then [Event.echoBody cfg.body] else []) ++ [Event.echoEnd])), ?_⟩,
      ?_, ?_⟩
    · by_cases hb : cfg.body = [] <;> simp [clientDo, hv, List.filter_cons, hw, he, hr, hb]
    · simp [clientDo, hv]
    · by_cases hb : cfg.body = [] <;>
        simp [clientDo, hv, List.countP_cons, List.countP_append, cw, ce, cr, hb]
    · simp [clientDo, hv]

/-- C5, as stated, fails on the header entry ": v": it contains a colon and
is applied with an empty field name, `client.Do` refuses the request, no
response arrives, the error is logged, and the single-shot run ends with exit
status 1 although nothing else fails. -/
theorem empty_field_name_is_not_sent :
    ':' ∈ ": v".toList ∧
    (exampleEnv .success).outcome none = Outcome.success ∧
    (mainHeaders [] [": v".toList]).1 = [([], ["v".toList])] ∧
    responses
      (main { exampleConfig 1 0 with headers := [": v".toList] }
        (exampleEnv .success)).coordinator = 0 ∧
    Event.errSend none ∈
      (main { exampleConfig 1 0 with headers := [": v".toList] }
        (exampleEnv .success)).coordinator ∧
    (main { exampleConfig 1 0 with headers := [": v".toList] }
      (exampleEnv .success)).exit.status = 1 ∧
    responses (makeRequest "GET".toList "http://localhost/".toList [] [": v".toList] true 1
      (exampleEnv .success)) = 0 ∧
    Event.errSend (some 1) ∈
      makeRequest "GET".toList "http://localhost/".toList [] [": v".toList] true 1
        (exampleEnv .success) := by
  decide

/-- C5, amended: in the executor and in the single-shot block alike, the
entries dropped are exactly those without a colon, each with exactly one
warning, in order; the header map is the result of applying every entry with a
colon, in order, whatever malformed entries stand before or after it; no
warning ends the run: when the request could be built, `client.Do` is called
once, after all warnings, with that header map.  A response arrives exactly
when every field name and value of the map is valid and the network does not
fail the send; a header map with an invalid name or value makes `client.Do`
fail, which is logged by the executor and ends the single-shot run with exit
status 1. -/
theorem malformed_headers_dropped_with_warning (cfg : Config) (env : Env) (wg : Bool)
    (n : Int) :
    (makeRequestHeaders n [] cfg.headers).2 =
      (cfg.headers.filter (fun h => decide (':' ∉ h))).map (Event.warnHeader (some n)) ∧
    (makeRequestHeaders n [] cfg.headers).1 =
      (cfg.headers.filter (fun h => decide (':' ∈ h))).foldl applyEntry [] ∧
    (mainHeaders [] cfg.headers).2 =
      (cfg.headers.filter (fun h => decide (':' ∉ h))).map (Event.warnHeader none) ∧
    (mainHeaders [] cfg.headers).1 =
      (cfg.headers.filter (fun h => decide (':' ∈ h))).foldl applyEntry [] ∧
    (env.outcome (some n) ≠ Outcome.buildFail →
      warnings (makeRequest cfg.method cfg.url cfg.body cfg.headers wg n env) =
        (cfg.headers.filter (fun h => decide (':' ∉ h))).map (Event.warnHeader (some n)) ∧
      sends (makeRequest cfg.method cfg.url cfg.body cfg.headers wg n env) = 1 ∧
      (∃ tail, makeRequest cfg.method cfg.url cfg.body cfg.headers wg n env =
        Event.newRequest (some n) (env.ToUpper cfg.method) cfg.url
            (if cfg.body ≠ [] then some cfg.body else none) ::
          ((cfg.headers.filter (fun h => decide (':' ∉ h))).map (Event.warnHeader (some n)) ++
            Event.send (some n)
              ((cfg.headers.filter (fun h => decide (':' ∈ h))).foldl applyEntry []) ::
                tail)) ∧
      responses (makeRequest cfg.method cfg.url cfg.body cfg.headers wg n env) =
        (if validateHeaders
              ((cfg.headers.filter (fun h => decide (':' ∈ h))).foldl applyEntry []) = true ∧
            env.outcome (some n) ≠ Outcome.sendFail then 1 else 0) ∧
      (validateHeaders
          ((cfg.headers.filter (fun h => decide (':' ∈ h))).foldl applyEntry []) = false →
        Event.errSend (some n) ∈
          makeRequest cfg.method cfg.url cfg.body cfg.headers wg n env)) ∧
    (env.outcome none ≠ Outcome.buildFail →
      warnings (singleShot cfg env).coordinator =
        (cfg.headers.filter (fun h => decide (':' ∉ h))).map (Event.warnHeader none) ∧
      sends (singleShot cfg env).coordinator = 1 ∧
      (∃ mid tail, (singleShot cfg env).coordinator =
        Event.newRequest none (env.ToUpper cfg.method) cfg.url
            (if cfg.body ≠ [] then some cfg.body else none) ::
          ((cfg.headers.filter (fun h => decide (':' ∉ h))).map (Event.warnHeader none) ++ mid ++
            Event.send none
              ((cfg.headers.filter (fun h => decide (':' ∈ h))).foldl applyEntry []) ::
                tail)) ∧
      responses (singleShot cfg env).coordinator =
        (if validateHeaders
              ((cfg.headers.filter (fun h => decide (':' ∈ h))).foldl applyEntry []) = true ∧
            env.outcome none ≠ Outcome.sendFail then 1 else 0) ∧
      (validateHeaders
          ((cfg.headers.filter (fun h => decide (':' ∈ h))).foldl applyEntry []) = false →
        Event.errSend none ∈ (singleShot cfg env).coordinator ∧
        (singleShot cfg env).exit = Exit.osExit 1)) := by
  have e1 := makeRequestHeaders_eq n cfg.headers []
  have e2 := mainHeaders_eq cfg.headers []
  refine ⟨by rw [e1], by rw [e1], by rw [e2], by rw [e2], ?_, ?_⟩
  · intro ho
    have h := makeRequest_after_headers cfg.method cfg.url cfg.body cfg.headers wg n env ho
    rw [e1] at h
    refine ⟨h.1, ?_, h.2.1, h.2.2.1, h.2.2.2⟩
    rw [makeRequest_sends, if_neg ho]
  · intro ho
    have h := singleShot_after_headers cfg env ho
    rw [e2] at h
    refine ⟨h.1, ?_, h.2.1, h.2.2.1, h.2.2.2⟩
    rw [singleShot_sends, if_neg ho]

/-- The amended C5 on the entries "Key: Value" and "NoColonHere": one warning,
for the entry without a colon, and one response. -/
theorem malformed_headers_dropped_with_warning_witness :
    (exampleEnv .success).outcome (some 1) ≠ Outcome.buildFail ∧
    warnings (makeRequest (exampleConfig 2 0).method (exampleConfig 2 0).url
        (exampleConfig 2 0).body (exampleConfig 2 0).headers true 1 (exampleEnv .success)) =
      (((exampleConfig 2 0).headers.filter (fun h => decide (':' ∉ h))).map
        (Event.warnHeader (some 1))) ∧
    ((exampleConfig 2 0).headers.filter (fun h => decide (':' ∉ h))) =
      ["NoColonHere".toList] ∧
    responses (makeRequest (exampleConfig 2 0).method (exampleConfig 2 0).url
        (exampleConfig 2 0).body (exampleConfig 2 0).headers true 1 (exampleEnv .success)) = 1 :=
  ⟨by decide,
    ((malformed_headers_dropped_with_warning (exampleConfig 2 0) (exampleEnv .success) true
      1).2.2.2.2.1 (by decide)).1,
    by decide, by decide⟩

theorem singleShot_echoLines (cfg : Config) (env : Env) (k : Str)
    (ho : env.outcome none ≠ Outcome.buildFail) :
    echoLinesFor k (singleShot cfg env).coordinator =
      echoLinesFor k (echoHeaders (mainHeaders [] cfg.headers).1) := by
  have hw := countP_mainHeaders
    (fun e => match e with | .echoHeader k1 _ => decide (k1 = k) | _ => false)
    (fun _ _ => rfl) [] cfg.headers
  have hr := countP_respHeaders
    (fun e => match e with | .echoHeader k1 _ => decide (k1 = k) | _ => false)
    (fun _ _ => rfl) (env.response none).header
  unfold echoLinesFor at *
  unfold singleShot
  cases hv : validateHeaders (mainHeaders [] cfg.headers).1 <;>
    cases h : env.outcome none
  all_goals try (simp [h] at ho)
  all_goals
    by_cases hb : cfg.body = [] <;>
      simp [clientDo, hv, List.countP_cons, List.countP_append, hw, hr, hb]

/-- C9: last write wins per key.  In the executor and in the single-shot block
alike, after all entries are applied the header map holds for a key `k` the
one-element list of the trimmed value of the last colon-containing entry whose
canonical key is `k`, and nothing if there is no such entry; no key holds
more than one value; and the single-shot echo prints exactly one outbound
header line for each key that some entry sets, and none for any other. -/
theorem last_header_write_wins (cfg : Config) (env : Env) (n : Int) (k : Str) :
    headerGet (makeRequestHeaders n [] cfg.headers).1 k =
      (lastEntryFor k (cfg.headers.filter (fun h => decide (':' ∈ h)))).map
        (fun h => [TrimSpace (afterColon h)]) ∧
    headerGet (mainHeaders [] cfg.headers).1 k =
      (lastEntryFor k (cfg.headers.filter (fun h => decide (':' ∈ h)))).map
        (fun h => [TrimSpace (afterColon h)]) ∧
    (∀ vs, headerGet (makeRequestHeaders n [] cfg.headers).1 k = some vs → vs.length = 1) ∧
    (∀ vs, headerGet (mainHeaders [] cfg.headers).1 k = some vs → vs.length = 1) ∧
    (env.outcome none ≠ Outcome.buildFail →
      echoLinesFor k (singleShot cfg env).coordinator =
        if (lastEntryFor k (cfg.headers.filter (fun h => decide (':' ∈ h)))).isSome then 1
        else 0) := by
  have e1 := makeRequestHeaders_eq n cfg.headers []
  have e2 := mainHeaders_eq cfg.headers []
  have hg := headerGet_foldl (cfg.headers.filter (fun h => decide (':' ∈ h))) [] k
  have hg1 : headerGet ((cfg.headers.filter (fun h => decide (':' ∈ h))).foldl applyEntry []) k =
      (lastEntryFor k (cfg.headers.filter (fun h => decide (':' ∈ h)))).map
        (fun h => [TrimSpace (afterColon h)]) := by
    rw [hg]
    cases lastEntryFor k (cfg.headers.filter (fun h => decide (':' ∈ h))) <;> simp [headerGet]
  have hlen : ∀ vs, headerGet ((cfg.headers.filter (fun h => decide (':' ∈ h))).foldl
      applyEntry []) k = some vs → vs.length = 1 := by
    intro vs hvs
    rw [hg1] at hvs
    rcases Option.map_eq_some'.1 hvs with ⟨h, _, rfl⟩
    rfl
  refine ⟨by rw [e1]; exact hg1, by rw [e2]; exact hg1, by rw [e1]; exact hlen,
    by rw [e2]; exact hlen, ?_⟩
  intro ho
  rw [singleShot_echoLines cfg env k ho, e2]
  have hk : KeysNodup ((cfg.headers.filter (fun h => decide (':' ∈ h))).foldl applyEntry []) :=
    keysNodup_foldl _ [] (by simp [KeysNodup])
  rw [echoLinesFor_echoHeaders _ k hk, hg1]
  cases lastEntryFor k (cfg.headers.filter (fun h => decide (':' ∈ h))) <;> simp

/-! ## The rate gate in time -/

theorem tickerRecv_bounds (p nf now B : Nat) (h : B + p ≤ nf) :
    B + p ≤ (tickerRecv p nf now).2 ∧ B + p + p ≤ (tickerRecv p nf now).1 := by
  unfold tickerRecv
  by_cases c : nf ≤ now
  · simp only [c, if_true]
    refine ⟨by omega, ?_⟩
    have : p ≤ ((now - nf) / p + 1) * p := Nat.le_mul_of_pos_left _ (Nat.succ_pos _)
    omega
  · simp only [c, if_false]
    omega

theorem timeline_mem (delay : Nat → Nat) (es : List Event) (k : Nat) (tk : Option (Nat × Nat))
    (now : Nat) (e : Event) (t : Nat) (h : (e, t) ∈ timeline delay k tk now es) : e ∈ es := by
  induction es generalizing k tk now with
  | nil => simp [timeline] at h
  | cons a es ih =>
    have key : (e, t) ∈ timeline delay k tk now (a :: es) →
        e = a ∨ ∃ k1 tk1 now1, (e, t) ∈ timeline delay k1 tk1 now1 es := by
      intro h
      unfold timeline at h
      split at h
      all_goals
        rcases List.mem_cons.1 h with h1 | h1
        · exact Or.inl (congrArg Prod.fst h1)
        · exact Or.inr ⟨_, _, _, h1⟩
    rcases key h with h1 | ⟨k1, tk1, now1, h1⟩
    · rw [h1]
      exact List.mem_cons_self _ _
    · exact List.mem_cons_of_mem _ (ih k1 tk1 now1 h1)

/-- In the dispatch loop under a ticker of period `p` whose next tick is due
no earlier than `B + p`, the launch of ordinal `j` happens no earlier than
`B + (j - i + 1) * p`, where `i` is the first ordinal of the loop. -/
theorem timeline_loop (delay : Nat → Nat) (p : Nat) (n : Int) (rest : List Event)
    (hrest : ∀ j, Event.go j ∉ rest) (m : Nat) :
    ∀ (i : Int) (k nf now B : Nat) (j : Int) (t : Nat), (n + 1 - i).toNat = m → B + p ≤ nf →
      (Event.go j, t) ∈ timeline delay k (some (p, nf)) now
        (((ordinalsFrom i n).map
          (fun j => [Event.tickWait] ++ [Event.wgAdd 1, Event.go j])).flatten ++ rest) →
      (B : Int) + (j - i + 1) * p ≤ t := by
  induction m with
  | zero =>
    intro i k nf now B j t hm _ h
    have : n < i := by omega
    rw [ordinalsFrom_of_lt _ _ this] at h
    exact absurd (timeline_mem _ _ _ _ _ _ _ h) (hrest j)
  | succ m ih =>
    intro i k nf now B j t hm hB h
    have hi : i ≤ n := by omega
    rw [ordinalsFrom_of_le _ _ hi] at h
    simp only [List.map_cons, List.flatten_cons, List.cons_append, List.nil_append,
      timeline, List.mem_cons, Prod.mk.injEq, reduceCtorEq, false_and, false_or,
      Event.go.injEq] at h
    have hb := tickerRecv_bounds p nf (now + delay k) B hB
    rcases h with ⟨rfl, rfl⟩ | h
    · have : (B : Int) + p ≤ ((tickerRecv p nf (now + delay k)).2 : Int) := by
        exact_mod_cast hb.1
      push_cast
      linarith [Int.ofNat_nonneg (delay (k + 1)), Int.ofNat_nonneg (delay (k + 1 + 1))]
    · have := ih (i + 1) _ _ _ (B + p) j t (by omega) hb.2 h
      push_cast at this
      linarith

/-- The launch of ordinal `i` in a run with a positive rate happens no
earlier than `i` tick intervals after the ticker is created. -/
theorem launch_after_ticks (cfg : Config) (env : Env) (delay : Nat → Nat) (i : Int) (t : Nat)
    (hr : 0 < cfg.perSecond)
    (h : (Event.go i, t) ∈ timeline delay 0 none 0 (main cfg env).coordinator) :
    (delay 0 : Int) + i * tickInterval cfg.perSecond ≤ t := by
  rcases main_cases cfg env with ⟨_, hm⟩ | ⟨_, _, hm⟩ | ⟨_, _, _, _, hm⟩ |
    ⟨_, _, hp, hm, hc, _, _⟩
  · rw [hm] at h
    have := timeline_mem _ _ _ _ _ _ _ h
    simp at this
  · rw [hm] at h
    exact absurd (timeline_mem _ _ _ _ _ _ _ h)
      (singleShot_not_mem _ cfg env (Or.inr (Or.inr (Or.inr (Or.inr ⟨i, rfl⟩)))))
  · rw [hm] at h
    simp [timeline] at h
  · have hpos : 0 < tickInterval cfg.perSecond := by
      by_contra c
      exact hp ⟨hr, by omega⟩
    rw [hm, hc] at h
    simp only [hr, if_true, List.cons_append, List.nil_append, List.append_assoc, timeline,
      List.mem_cons, Prod.mk.injEq, reduceCtorEq, false_and, false_or] at h
    have := timeline_loop delay (tickInterval cfg.perSecond).toNat cfg.requests
      [Event.wgWait, Event.summary cfg.requests] (by simp) _ 1 _ _ _ (0 + delay 0) i t rfl
      (le_refl _) (by rw [ordinalsFrom_one]; exact h)
    have e : (((tickInterval cfg.perSecond).toNat : Nat) : Int) = tickInterval cfg.perSecond :=
      Int.toNat_of_nonneg (le_of_lt hpos)
    rw [e] at this
    push_cast at this
    linarith

theorem newTicker_time (cfg : Config) (env : Env) (delay : Nat → Nat) (d : Int) (t0 : Nat)
    (h : (Event.newTicker d, t0) ∈ timeline delay 0 none 0 (main cfg env).coordinator) :
    t0 = delay 0 := by
  rcases main_cases cfg env with ⟨_, hm⟩ | ⟨_, _, hm⟩ | ⟨_, _, _, _, hm⟩ |
    ⟨_, _, hp, hm, hc, _, _⟩
  · rw [hm] at h
    have := timeline_mem _ _ _ _ _ _ _ h
    simp at this
  · rw [hm] at h
    have h1 := timeline_mem _ _ _ _ _ _ _ h
    have : List.count (Event.newTicker d) (singleShot cfg env).coordinator = 0 := by
      rw [List.count, singleShot_countP] <;> simp
    exact absurd h1 (List.count_eq_zero.1 this)
  · rw [hm] at h
    simp [timeline] at h
  · rw [hm, hc] at h
    have hloop : ∀ (pre : List Event) (l : List Int), Event.newTicker d ∉ pre →
        Event.newTicker d ∉ (l.map (fun j => pre ++ [Event.wgAdd 1, Event.go j])).flatten := by
      intro pre l hpre hmem
      rcases List.mem_flatten.1 hmem with ⟨x, hx, hd⟩
      rcases List.mem_map.1 hx with ⟨j, _, rfl⟩
      rcases List.mem_append.1 hd with h1 | h1
      · exact hpre h1
      · simp at h1
    by_cases hr : 0 < cfg.perSecond
    · simp only [hr, if_true, List.cons_append, List.nil_append, List.append_assoc, timeline,
        List.mem_cons, Prod.mk.injEq] at h
      rcases h with ⟨_, h1⟩ | h1
      · omega
      · rcases h1 with ⟨h2, _⟩ | h1
        · exact absurd h2 (by simp)
        · have h2 := timeline_mem _ _ _ _ _ _ _ h1
          rcases List.mem_append.1 h2 with h3 | h3
          · exact absurd h3 (hloop [Event.tickWait] _ (by simp))
          · simp at h3
    · simp only [hr, if_false, List.nil_append] at h
      have h2 := timeline_mem _ _ _ _ _ _ _ h
      rw [List.append_assoc] at h2
      rcases List.mem_append.1 h2 with h3 | h3
      · simp at h3
      · rcases List.mem_append.1 h3 with h4 | h4
        · exact absurd h4 (hloop [] _ (by simp))
        · simp at h4

/-- C6, as stated, fails at rate 3 and count 2: with no delay besides the
gate, the second request is issued at the second tick, 666666666 ns after the
start, which is earlier than `⌈(2 - 1) / 3⌉ = 1` second. -/
theorem second_launch_before_one_second :
    (Event.go 2, 666666666) ∈
      timeline (fun _ => 0) 0 none 0
        (main (exampleConfig 2 3) (exampleEnv .success)).coordinator ∧
    ¬ (ceilDiv (2 - 1) 3 * 1000000000 ≤ (666666666 : Int)) := by
  decide

/-- C6, amended: for every rate `R > 0`, whatever the delays of the main
goroutine, the `i`-th request is issued no earlier than `i` tick intervals of
`⌊10^9 / R⌋` nanoseconds after the start of the run, counted also from the
creation of the gate's ticker; when `R` divides 10^9 this is `i / R` seconds,
so that the launches are throttled to at most `R` per second. -/
theorem launch_time_lower_bound (cfg : Config) (env : Env) (delay : Nat → Nat) (i : Int)
    (t : Nat) (hr : 0 < cfg.perSecond)
    (h : (Event.go i, t) ∈ timeline delay 0 none 0 (main cfg env).coordinator) :
    i * tickInterval cfg.perSecond ≤ t ∧
    (∀ (d : Int) (t0 : Nat),
      (Event.newTicker d, t0) ∈ timeline delay 0 none 0 (main cfg env).coordinator →
        (t0 : Int) + i * tickInterval cfg.perSecond ≤ t) ∧
    (1000000000 % cfg.perSecond = 0 → i * 1000000000 ≤ t * cfg.perSecond) := by
  have h1 := launch_after_ticks cfg env delay i t hr h
  have hd : (0 : Int) ≤ (delay 0 : Int) := Int.ofNat_nonneg _
  have hi : i * tickInterval cfg.perSecond ≤ t := by linarith
  refine ⟨hi, ?_, ?_⟩
  · intro d t0 h0
    rw [newTicker_time cfg env delay d t0 h0]
    exact h1
  · intro hdvd
    have he : tickInterval cfg.perSecond = 1000000000 / cfg.perSecond := by
      unfold tickInterval
      exact Int.tdiv_eq_ediv (by norm_num) (le_of_lt hr)
    have hmul : tickInterval cfg.perSecond * cfg.perSecond = 1000000000 := by
      rw [he]
      exact Int.ediv_mul_cancel (Int.dvd_of_emod_eq_zero hdvd)
    have : i * 1000000000 = i * tickInterval cfg.perSecond * cfg.perSecond := by
      rw [← hmul]
      ring
    rw [this]
    exact mul_le_mul_of_nonneg_right hi (le_of_lt hr)

/-- The amended C6 at rate 3: the fourth request is issued at 1333333332 ns,
four tick intervals after the start. -/
theorem launch_time_lower_bound_witness :
    (0 : Int) < (exampleConfig 4 3).perSecond ∧
    (Event.go 4, 1333333332) ∈
      timeline (fun _ => 0) 0 none 0
        (main (exampleConfig 4 3) (exampleEnv .success)).coordinator ∧
    4 * tickInterval (exampleConfig 4 3).perSecond ≤ ((1333333332 : Nat) : Int) :=
  ⟨by decide, by decide,
    (launch_time_lower_bound (exampleConfig 4 3) (exampleEnv .success) (fun _ => 0) 4
      1333333332 (by decide) (by decide)).1⟩

/-- C9 on the entries "key: a" and "KEY : b": the key `Key` holds the one
value "b", printed on one line. -/
theorem last_header_write_wins_witness :
    (exampleEnv .success).outcome none ≠ Outcome.buildFail ∧
    echoLinesFor "Key".toList
        (singleShot { exampleConfig 1 0 with headers := ["key: a".toList, "KEY : b".toList] }
          (exampleEnv .success)).coordinator =
      (if (lastEntryFor "Key".toList
          (({ exampleConfig 1 0 with headers := ["key: a".toList, "KEY : b".toList] } :
            Config).headers.filter (fun h => decide (':' ∈ h)))).isSome then 1 else 0) ∧
    headerGet (mainHeaders [] ["key: a".toList, "KEY : b".toList]).1 "Key".toList =
      some ["b".toList] :=
  ⟨by decide,
    (last_header_write_wins
      { exampleConfig 1 0 with headers := ["key: a".toList, "KEY : b".toList] }
      (exampleEnv .success) 1 "Key".toList).2.2.2.2 (by decide),
    by decide⟩

end Httpclt
